import Mathlib

/-!
# Kaczmarz reconstruction kernel: embedding and verified properties

Shallow embedding of the numerical core of the CT reconstruction demo
(`art.h`, `utils.h`, `ray.h`).

Conventions of the embedding.

* A C `float` is an exact rational (`ℚ`): every statement is about exact
  arithmetic, rounding is not modelled.  The only non-finite value the code
  names explicitly is the `INFINITY` sentinel of `liang_barsky_ray`; the
  result of that function is carried by `XFloat`.
* A `float *` buffer is a total function `Nat → ℚ` (the memory behind the
  pointer); a store is `Function.update`.
* A C `int` is an `Int`, a `size_t` is a `Nat` (no wrap-around is modelled).
* A counted `for` loop is `forLoop` (or `forLoopM` when the body can leave
  exact arithmetic, which is reported as `none`).
* `sqrtf`, `cosf`, `sinf` and the constant `PI` are parameters of the model
  (`ℚ` has no exact square root, cosine or sine).
* An `unsigned char` sample is a `Fin 256`.
* The arena is the list of its blocks, each with a `used` count and a
  capacity; the storage it hands out is a block number, an offset and a size,
  and the contents of the storage are the buffers above.
-/

namespace CtxRay

/-! ## Loops -/

/-- The loop `for (i = 0; i < n; i++) s = body i s`. -/
def forLoop {σ : Type} (n : Nat) (body : Nat → σ → σ) (s : σ) : σ :=
  match n with
  | 0 => s
  | k + 1 => body k (forLoop k body s)

/-- The loop `for (i = 0; i < n; i++) s = body i s` whose body may fail. -/
def forLoopM {σ : Type} (n : Nat) (body : Nat → σ → Option σ) (s : σ) : Option σ :=
  match n with
  | 0 => some s
  | k + 1 => (forLoopM k body s).bind (body k)

/-- The loop `for (i = lo; i < hi; i++) s = body i s` whose body may fail. -/
def forRangeM {σ : Type} (lo hi : Nat) (body : Nat → σ → Option σ) (s : σ) : Option σ :=
  forLoopM (hi - lo) (fun k => body (lo + k)) s

/-! ## Floating point values outside the rationals -/

/-- Value of a C `float` in exact arithmetic: a rational number, one of the two
infinities, or NaN. -/
inductive XFloat where
  | fin (q : ℚ)
  | posInf
  | negInf
  | nan
  deriving DecidableEq

/-- The comparison `a < b` of two floats (false when either is NaN). -/
def XFloat.lt : XFloat → XFloat → Bool
  | .fin a, .fin b => decide (a < b)
  | .fin _, .posInf => true
  | .negInf, .fin _ => true
  | .negInf, .posInf => true
  | _, _ => false

/-- The difference `a - b` of two floats. -/
def XFloat.sub : XFloat → XFloat → XFloat
  | .fin a, .fin b => .fin (a - b)
  | .fin _, .posInf => .negInf
  | .fin _, .negInf => .posInf
  | .posInf, .fin _ => .posInf
  | .posInf, .negInf => .posInf
  | .negInf, .fin _ => .negInf
  | .negInf, .posInf => .negInf
  | _, _ => .nan

/-- Sign-aware product of an infinity (`pos = true` for `+inf`) and a rational. -/
def XFloat.infMul (pos : Bool) (b : ℚ) : XFloat :=
  if b = 0 then .nan
  else if decide (0 < b) = pos then .posInf
  else .negInf

/-- The product `a * b` of two floats. -/
def XFloat.mul : XFloat → XFloat → XFloat
  | .fin a, .fin b => .fin (a * b)
  | .posInf, .fin b => XFloat.infMul true b
  | .negInf, .fin b => XFloat.infMul false b
  | .fin a, .posInf => XFloat.infMul true a
  | .fin a, .negInf => XFloat.infMul false a
  | .posInf, .posInf => .posInf
  | .negInf, .negInf => .posInf
  | .posInf, .negInf => .negInf
  | .negInf, .posInf => .negInf
  | _, _ => .nan

/-- The rational value of a finite float; `none` for an infinity or NaN. -/
def XFloat.toRat? : XFloat → Option ℚ
  | .fin q => some q
  | _ => none

/-- The quotient `a / b` in exact arithmetic; `none` when `b` is zero (the float
result is then an infinity or NaN). -/
def fdiv (a b : ℚ) : Option ℚ :=
  if b = 0 then none else some (a / b)

/-! ## Geometry primitive (`utils.h`) -/

/-- The struct `Rect` of `utils.h`. -/
structure Rect where
  xmin : ℚ
  ymin : ℚ
  xmax : ℚ
  ymax : ℚ

/-- The struct `LiangBarskyResult` of `utils.h`. -/
structure LiangBarskyResult where
  intersects : Bool
  length : XFloat
  t1 : XFloat
  t2 : XFloat
  deriving DecidableEq

/-- The compound literal `(LiangBarskyResult){.intersects = false}`: the other
fields are zero-initialised. -/
def LiangBarskyResult.miss : LiangBarskyResult :=
  { intersects := false, length := .fin 0, t1 := .fin 0, t2 := .fin 0 }

/-- The arrays `entryParams` and `exitParams` of `liang_barsky_ray` once both
axis pairs are processed; index 0 holds the sentinels `0.0f` and `INFINITY`. -/
def lb_params (r : Rect) (ox oy dx dy : ℚ) : List ℚ × List XFloat :=
  let p1 := -dx
  let p2 := dx
  let p3 := -dy
  let p4 := dy
  let q1 := ox - r.xmin
  let q2 := r.xmax - ox
  let q3 := oy - r.ymin
  let q4 := r.ymax - oy
  let s0 : List ℚ × List XFloat := ([0], [XFloat.posInf])
  let s1 : List ℚ × List XFloat :=
    if p1 ≠ 0 then
      let r1 := q1 / p1
      let r2 := q2 / p2
      if p1 < 0 then (s0.1 ++ [r1], s0.2 ++ [XFloat.fin r2])
      else (s0.1 ++ [r2], s0.2 ++ [XFloat.fin r1])
    else s0
  if p3 ≠ 0 then
    let r3 := q3 / p3
    let r4 := q4 / p4
    if p3 < 0 then (s1.1 ++ [r3], s1.2 ++ [XFloat.fin r4])
    else (s1.1 ++ [r4], s1.2 ++ [XFloat.fin r3])
  else s1

/-- The scan `u1 = entryParams[0]; for i >= 1: if (entryParams[i] > u1) u1 = entryParams[i]`. -/
def lb_u1 (entryParams : List ℚ) : ℚ :=
  match entryParams with
  | [] => 0
  | e0 :: es => es.foldl (fun u1 e => if e > u1 then e else u1) e0

/-- The scan `u2 = exitParams[0]; for i >= 1: if (exitParams[i] < u2) u2 = exitParams[i]`. -/
def lb_u2 (exitParams : List XFloat) : XFloat :=
  match exitParams with
  | [] => XFloat.posInf
  | e0 :: es => es.foldl (fun u2 e => if XFloat.lt e u2 then e else u2) e0

/-- The function `liang_barsky_ray` of `utils.h`. -/
def liang_barsky_ray (sqrtf : ℚ → ℚ) (r : Rect) (ox oy dx dy : ℚ) : LiangBarskyResult :=
  let p1 := -dx
  let p2 := dx
  let p3 := -dy
  let p4 := dy
  let q1 := ox - r.xmin
  let q2 := r.xmax - ox
  let q3 := oy - r.ymin
  let q4 := r.ymax - oy
  if (p1 = 0 ∧ q1 < 0) ∨ (p2 = 0 ∧ q2 < 0) ∨ (p3 = 0 ∧ q3 < 0) ∨ (p4 = 0 ∧ q4 < 0) then
    LiangBarskyResult.miss
  else
    let u1 := lb_u1 (lb_params r ox oy dx dy).1
    let u2 := lb_u2 (lb_params r ox oy dx dy).2
    if XFloat.lt u2 (XFloat.fin u1) ∨ XFloat.lt u2 (XFloat.fin 0) then
      LiangBarskyResult.miss
    else
      let u1 := if u1 < 0 then 0 else u1
      let len := XFloat.mul (XFloat.sub u2 (XFloat.fin u1)) (XFloat.fin (sqrtf (dx * dx + dy * dy)))
      { intersects := true, length := len, t1 := XFloat.fin u1, t2 := u2 }

/-! ## Ray sets (`ray.h`) -/

/-- The enum `RaySetType` of `ray.h`. -/
inductive RaySetType where
  | RAY_MODE_FAN
  | RAY_MODE_PARALLEL
  deriving DecidableEq

/-- The struct `RaySetFanMetadata` of `ray.h`. -/
structure RaySetFanMetadata where
  cx : ℚ
  cy : ℚ
  radius : ℚ
  num_sources : Nat
  num_rays_per_source : Nat
  angle_spread_rad : ℚ
  deriving DecidableEq

/-- The struct `CTRay` of `ray.h`. -/
structure CTRay where
  ox : ℚ
  oy : ℚ
  dx : ℚ
  dy : ℚ
  length : ℚ
  deriving DecidableEq

/-- The anonymous union `metadata` of `RaySet`, whose only member is `fan`. -/
structure RaySetMetadata where
  fan : RaySetFanMetadata
  deriving DecidableEq

/-- The struct `RaySet` of `ray.h`. -/
structure RaySet where
  rays : Nat → CTRay
  projections : Nat → ℚ
  count : Nat
  max_count : Nat
  type : RaySetType
  metadata : RaySetMetadata

/-- The function `fan_same` of `ray.h`. -/
def fan_same (rf : RaySetFanMetadata) (cx cy radius : ℚ) : Bool :=
  decide (rf.cx = cx) && decide (rf.cy = cy) && decide (rf.radius = radius)

/-- The function `rayset_fan_translate` of `ray.h`; `none` when a division by a
zero radius is executed. -/
def rayset_fan_translate (rs : RaySet) (new_cx new_cy new_radius : ℚ) : Option RaySet :=
  let rf := rs.metadata.fan
  let old_cx := rf.cx
  let old_cy := rf.cy
  let old_r := rf.radius
  (forLoopM rs.count
    (fun i rays =>
      let ox := (rays i).ox
      let oy := (rays i).oy
      (fdiv (ox - old_cx) old_r).bind fun nx =>
      (fdiv (oy - old_cy) old_r).bind fun ny =>
      some (Function.update rays i
        { rays i with
          ox := new_cx + nx * new_radius
          oy := new_cy + ny * new_radius
          length := new_radius * 2 }))
    rs.rays).map
    fun rays =>
      { rs with
        rays := rays
        metadata := { fan := { rf with cx := new_cx, cy := new_cy, radius := new_radius } } }

/-- The function `rayset_translate` of `ray.h`: the returned flag and the ray
set after the call. -/
def rayset_translate (rs : RaySet) (x y w h : Int) : Option (Bool × RaySet) :=
  let cx : ℚ := (x : ℚ) + (w : ℚ) / 2
  let cy : ℚ := (y : ℚ) + (h : ℚ) / 2
  let radius : ℚ := (1 / 2) * max (w : ℚ) (h : ℚ)
  if !fan_same rs.metadata.fan cx cy radius then
    (rayset_fan_translate rs cx cy radius).map fun rs1 => (false, rs1)
  else some (false, rs)

/-! ## Reconstruction grid (`art.h`) -/

/-- The struct `ReconGrid` of `art.h`. -/
structure ReconGrid where
  values : Nat → ℚ
  ground_truth : Nat → ℚ
  row_buffer : Nat → ℚ
  nx : Int
  ny : Int
  cell_size : Int
  n : Int

/-- The literal `1e-12f` of `recon_kaczmarz_step`. -/
def ROW_NORM_EPS : ℚ := 1 / 1000000000000

/-- The first loop of `recon_kaczmarz_step`: accumulates `(ax, norm_a)`. -/
def kaczmarz_sums (g : ReconGrid) : ℚ × ℚ :=
  forLoop g.n.toNat
    (fun i acc => (acc.1 + g.row_buffer i * g.values i,
                   acc.2 + g.row_buffer i * g.row_buffer i))
    (0, 0)

/-- The function `recon_kaczmarz_step` of `art.h`. -/
def recon_kaczmarz_step (g : ReconGrid) (projection : ℚ) : ReconGrid :=
  let ax := (kaczmarz_sums g).1
  let norm_a := (kaczmarz_sums g).2
  if norm_a < ROW_NORM_EPS then g
  else
    let alpha := (projection - ax) / norm_a
    { g with
      values := forLoop g.n.toNat
        (fun i v => Function.update v i (v i + alpha * g.row_buffer i)) g.values }


/-- The rectangle of cell `(ix, iy)` formed in `recon_build_row`. -/
def cell_rect (cell_size : Int) (ix iy : Nat) : Rect :=
  { xmin := (((ix : Int) * cell_size : Int) : ℚ)
    ymin := (((iy : Int) * cell_size : Int) : ℚ)
    xmax := ((((ix : Int) + 1) * cell_size : Int) : ℚ)
    ymax := ((((iy : Int) + 1) * cell_size : Int) : ℚ) }

/-- The body of the inner loop of `recon_build_row` for cell `(ix, iy)`; `none`
when the weight stored is not a finite number. -/
def build_row_cell (sqrtf : ℚ → ℚ) (g : ReconGrid) (ray : CTRay) (iy ix : Nat)
    (rb : Nat → ℚ) : Option (Nat → ℚ) :=
  let cell := cell_rect g.cell_size ix iy
  let hit := liang_barsky_ray sqrtf cell ray.ox ray.oy ray.dx ray.dy
  if hit.intersects then
    (hit.length.toRat?.bind fun len => fdiv len (g.cell_size : ℚ)).map
      fun w => Function.update rb ((iy : Int) * g.nx + (ix : Int)).toNat w
  else some rb

/-- The function `recon_build_row` of `art.h`. -/
def recon_build_row (sqrtf : ℚ → ℚ) (g : ReconGrid) (ray : CTRay) : Option ReconGrid :=
  let rb0 := forLoop g.n.toNat (fun i rb => Function.update rb i 0) g.row_buffer
  (forLoopM g.ny.toNat
    (fun iy rb => forLoopM g.nx.toNat (fun ix rb1 => build_row_cell sqrtf g ray iy ix rb1) rb)
    rb0).map
    fun rb => { g with row_buffer := rb }

/-- The function `recon_compute_projection` of `art.h`: the returned value and
the grid after the call. -/
def recon_compute_projection (sqrtf : ℚ → ℚ) (g : ReconGrid) (ray : CTRay) :
    Option (ℚ × ReconGrid) :=
  (recon_build_row sqrtf g ray).map fun g1 =>
    (forLoop g1.n.toNat (fun i b => b + g1.ground_truth i * g1.row_buffer i) 0, g1)

/-- The function `recon_process_ray` of `art.h`. -/
def recon_process_ray (sqrtf : ℚ → ℚ) (g : ReconGrid) (ray : CTRay) (projection : ℚ) :
    Option ReconGrid :=
  (recon_build_row sqrtf g ray).map fun g1 => recon_kaczmarz_step g1 projection

/-- The function `recon_precompute_projections` of `art.h`. -/
def recon_precompute_projections (sqrtf : ℚ → ℚ) (g : ReconGrid) (rs : RaySet) :
    Option (ReconGrid × RaySet) :=
  forLoopM rs.count
    (fun i st =>
      (recon_compute_projection sqrtf st.1 (st.2.rays i)).map fun bg =>
        (bg.2, { st.2 with projections := Function.update st.2.projections i bg.1 }))
    (g, rs)

/-- The function `recon_iterate_fan` of `art.h`. -/
def recon_iterate_fan (sqrtf : ℚ → ℚ) (g : ReconGrid) (rs : RaySet) (iteration : Nat) :
    Option ReconGrid :=
  if rs.type ≠ RaySetType.RAY_MODE_FAN then some g
  else
    let startIndex := iteration * rs.metadata.fan.num_rays_per_source
    let endIndex := startIndex + rs.metadata.fan.num_rays_per_source
    forRangeM startIndex endIndex
      (fun i g1 => recon_process_ray sqrtf g1 (rs.rays i) (rs.projections i)) g

/-- One full sweep: `recon_iterate_fan` called once for each source index
`0, 1, ..., num_sources - 1`, in that order. -/
def full_sweep (sqrtf : ℚ → ℚ) (g : ReconGrid) (rs : RaySet) : Option ReconGrid :=
  forLoopM rs.metadata.fan.num_sources (fun s g1 => recon_iterate_fan sqrtf g1 rs s) g

/-! ## Arena (`arena.h`) -/

/-- The macro `ARENA_BLOCK_SIZE` of `arena.h`. -/
def ARENA_BLOCK_SIZE : Nat := 16 * 1024

/-- A block of the arena: the field `used` of the struct `ArenaBlock`, and the number
of bytes of its `data` member (`ARENA_BLOCK_SIZE` for a regular block, the requested
size for a dedicated block). -/
structure ArenaBlock where
  used : Nat
  capacity : Nat
  deriving DecidableEq

/-- The struct `Arena` of `arena.h`: the chain of blocks, starting at `head`. -/
abbrev Arena := List ArenaBlock

/-- The storage behind a pointer returned by `arena_alloc`: `size` bytes at `offset`
in the `data` of a block.  Blocks are numbered in order of creation, so the number of a
block does not change when newer blocks are put in front of it. -/
structure Region where
  block : Nat
  offset : Nat
  size : Nat
  deriving DecidableEq

/-- The function `arena_create` of `arena.h`: an arena with no block. -/
def arena_create : Arena := []

/-- The end of `arena_alloc`: `ptr = head->data + head->used; head->used += size`.
(The head exists at this point; the first case is never reached from `arena_alloc`.) -/
def arena_bump (a : Arena) (size : Nat) : Arena × Region :=
  match a with
  | [] => ([], { block := 0, offset := 0, size := size })
  | b :: rest =>
    ({ b with used := b.used + size } :: rest,
     { block := rest.length, offset := b.used, size := size })

/-- The function `arena_alloc` of `arena.h`: the arena after the call and the storage
returned. -/
def arena_alloc (a : Arena) (size : Nat) : Arena × Region :=
  if size > ARENA_BLOCK_SIZE then
    ({ used := size, capacity := size } :: a, { block := a.length, offset := 0, size := size })
  else
    let needsBlock : Bool :=
      match a with
      | [] => true
      | b :: _ => decide (b.used + size > ARENA_BLOCK_SIZE)
    let a1 : Arena := if needsBlock then { used := 0, capacity := ARENA_BLOCK_SIZE } :: a else a
    arena_bump a1 size

/-- The function `arena_alloc_zero` of `arena.h`; the `memset` changes the contents of
the storage only, which the block list does not hold. -/
def arena_alloc_zero (a : Arena) (size : Nat) : Arena × Region :=
  arena_alloc a size

/-- The function `arena_reset` of `arena.h`. -/
def arena_reset (a : Arena) : Arena :=
  a.map fun b => { b with used := 0 }

/-! ## Grid construction (`art.h`) -/

/-- The function `recon_grid_alloc` of `art.h`.  `mem` is the content of the storage
before the call: `values` is zeroed over its `n` entries, the other two buffers are
left as they are.  `none` when `cell_size` is zero (integer division by zero) or `n` is
negative (the byte count passed to the arena is then not `n * 4`). -/
def recon_grid_alloc (arena : Arena) (mem : ReconGrid) (img_w img_h cell_size : Int) :
    Option (Arena × ReconGrid) :=
  if cell_size = 0 then none
  else
    let nx := (img_w + cell_size - 1).tdiv cell_size
    let ny := (img_h + cell_size - 1).tdiv cell_size
    let n := nx * ny
    if n < 0 then none
    else
      let a1 := (arena_alloc_zero arena (n.toNat * 4)).1
      let a2 := (arena_alloc a1 (n.toNat * 4)).1
      let a3 := (arena_alloc a2 (n.toNat * 4)).1
      some (a3,
        { values := fun i => if i < n.toNat then 0 else mem.values i
          ground_truth := mem.ground_truth
          row_buffer := mem.row_buffer
          nx := nx
          ny := ny
          cell_size := cell_size
          n := n })

/-- The two inner loops of `recon_grid_build_truth` for cell `(ix, iy)`: the pair
`(sum, count)`. -/
def truth_cell_sums (g : ReconGrid) (pixels : Nat → Fin 256) (img_w img_h : Int)
    (ix iy : Nat) : ℚ × Int :=
  forLoop g.cell_size.toNat
    (fun yy acc =>
      forLoop g.cell_size.toNat
        (fun xx acc1 =>
          let px : Int := (ix : Int) * g.cell_size + (xx : Int)
          let py : Int := (iy : Int) * g.cell_size + (yy : Int)
          if px < img_w ∧ py < img_h then
            (acc1.1 + (((pixels (py * img_w + px).toNat).val : Nat) : ℚ), acc1.2 + 1)
          else acc1)
        acc)
    (0, 0)

/-- The body of the loop over the cells in `recon_grid_build_truth`; `none` when
`count` is zero (division by zero). -/
def build_truth_cell (g : ReconGrid) (pixels : Nat → Fin 256) (img_w img_h : Int)
    (iy ix : Nat) (gt : Nat → ℚ) : Option (Nat → ℚ) :=
  let sc := truth_cell_sums g pixels img_w img_h ix iy
  (fdiv sc.1 (sc.2 : ℚ)).map
    fun avg => Function.update gt ((iy : Int) * g.nx + (ix : Int)).toNat (avg / 255)

/-- The function `recon_grid_build_truth` of `art.h`. -/
def recon_grid_build_truth (g : ReconGrid) (pixels : Nat → Fin 256) (img_w img_h : Int) :
    Option ReconGrid :=
  (forLoopM g.ny.toNat
    (fun iy gt => forLoopM g.nx.toNat
      (fun ix gt1 => build_truth_cell g pixels img_w img_h iy ix gt1) gt)
    g.ground_truth).map
    fun gt => { g with ground_truth := gt }

/-! ## Fan generation (`ray.h`)

`cosf`, `sinf` and the constant `PI` are parameters of the model, like `sqrtf`. -/

/-- The function `rayset_alloc` of `ray.h`.  `mem` is the content of the struct and of
the storage before the call: only `count` and `max_count` are assigned.  A `CTRay` is
five floats (20 bytes), a projection one float (4 bytes). -/
def rayset_alloc (arena : Arena) (mem : RaySet) (count_rays : Nat) : Arena × RaySet :=
  let a1 := (arena_alloc arena (count_rays * 20)).1
  let a2 := (arena_alloc a1 (count_rays * 4)).1
  (a2, { mem with count := 0, max_count := count_rays })

/-- The function `rayset_append` of `ray.h`. -/
def rayset_append (rs : RaySet) (ray : CTRay) : RaySet :=
  { rs with rays := Function.update rs.rays rs.count ray, count := rs.count + 1 }

/-- The body of the inner loop of `rayset_generate_fan`, for source `i` and the
iteration number `t` of the loop `for (j = -halfNumRays; j <= halfNumRays; j++)`, that
is `j = -halfNumRays + t`.  `angle_step` and `spread_angle_step` are `none` when the
division that defines them is a division by zero; the ray is then not a finite one. -/
def fan_append_ray (cosf sinf : ℚ → ℚ) (PI : ℚ) (halfNumRays : Int)
    (angle_step spread_angle_step : Option ℚ) (i t : Nat) (rs : RaySet) : Option RaySet :=
  angle_step.bind fun step =>
    let angle : ℚ := (i : ℚ) * step
    let xsource := cosf angle
    let ysource := sinf angle
    spread_angle_step.bind fun sstep =>
      let j : Int := -halfNumRays + (t : Int)
      let offset : ℚ := (j : ℚ) * sstep
      let ray_angle : ℚ := angle + PI + offset
      let dx := cosf ray_angle
      let dy := sinf ray_angle
      some (rayset_append rs { ox := xsource, oy := ysource, dx := dx, dy := dy, length := 1 })

/-- The function `rayset_generate_fan` of `ray.h`: the arena after the call and the set
returned; `none` when a ray with a non-finite component is appended. -/
def rayset_generate_fan (cosf sinf : ℚ → ℚ) (PI : ℚ) (arena : Arena) (mem : RaySet)
    (num_sources num_rays_per_source : Nat) (angle_spread_deg : ℚ) :
    Option (Arena × RaySet) :=
  let halfNumRays : Int := ((num_rays_per_source / 2 : Nat) : Int)
  let actual_rays_per_source : Nat := (2 * halfNumRays + 1).toNat
  let ars := rayset_alloc arena mem (num_sources * actual_rays_per_source)
  let radius : ℚ := 1
  let angle_spread_rad : ℚ := angle_spread_deg * PI / 180
  let angle_step : Option ℚ :=
    (fdiv 360 (num_sources : ℚ)).map fun angle_step_deg => angle_step_deg * PI / 180
  let spread_angle_step : Option ℚ :=
    fdiv angle_spread_rad (((actual_rays_per_source - 1 : Nat) : ℚ))
  (forLoopM num_sources
    (fun i rs =>
      forLoopM (2 * halfNumRays + 1).toNat
        (fun t rs1 =>
          fan_append_ray cosf sinf PI halfNumRays angle_step spread_angle_step i t rs1) rs)
    ars.2).map
    fun rs =>
      (ars.1,
       { rs with
         type := RaySetType.RAY_MODE_FAN
         metadata :=
           { fan :=
               { cx := 0
                 cy := 0
                 radius := radius
                 num_sources := num_sources
                 num_rays_per_source := actual_rays_per_source
                 angle_spread_rad := angle_spread_rad } } })

/-! ## Specification vocabulary -/

/-- Dot product of the first `n` entries of two buffers. -/
def dot (n : Nat) (a b : Nat → ℚ) : ℚ :=
  ∑ i in Finset.range n, a i * b i

/-- Squared Euclidean distance between the first `n` entries of two buffers. -/
def sqDist (n : Nat) (a b : Nat → ℚ) : ℚ :=
  ∑ i in Finset.range n, (a i - b i) ^ 2

/-- The point `(x, y)` lies in the closed rectangle `r`. -/
def inRect (r : Rect) (x y : ℚ) : Prop :=
  r.xmin ≤ x ∧ x ≤ r.xmax ∧ r.ymin ≤ y ∧ y ≤ r.ymax

/-- The entry parameter that `liang_barsky_ray` computes for one axis with bounds
`[lo, hi]`, origin coordinate `o` and direction component `d` (`p = -d`). -/
def axisEntry (lo hi o d : ℚ) : ℚ :=
  if -d < 0 then (o - lo) / (-d) else (hi - o) / d

/-- The exit parameter that `liang_barsky_ray` computes for one axis. -/
def axisExit (lo hi o d : ℚ) : ℚ :=
  if -d < 0 then (hi - o) / d else (o - lo) / (-d)

/-- The parallel rejection test of `liang_barsky_ray`: the ray is parallel to an
axis pair and its origin lies outside that pair. -/
def parallelOutside (r : Rect) (ox oy dx dy : ℚ) : Prop :=
  (-dx = 0 ∧ ox - r.xmin < 0) ∨ (dx = 0 ∧ r.xmax - ox < 0) ∨
    (-dy = 0 ∧ oy - r.ymin < 0) ∨ (dy = 0 ∧ r.ymax - oy < 0)

/-- What `recon_build_row` does for the cell of flat index `c` (`ix = c % nx`,
`iy = c / nx`) of a grid with `nx` columns: `some (some w)` stores the weight `w`,
`some none` stores nothing (no intersection), `none` is a non-finite weight. -/
def cellWeight (sqrtf : ℚ → ℚ) (cell_size : Int) (nx : Nat) (ray : CTRay) (c : Nat) :
    Option (Option ℚ) :=
  let hit := liang_barsky_ray sqrtf (cell_rect cell_size (c % nx) (c / nx))
    ray.ox ray.oy ray.dx ray.dy
  if hit.intersects then
    (hit.length.toRat?.bind fun len => fdiv len (cell_size : ℚ)).map some
  else some none

/-- The store, if any, that an outcome of `cellWeight` makes at index `c`. -/
def applyWrite (o : Option ℚ) (c : Nat) (rb : Nat → ℚ) : Nat → ℚ :=
  match o with
  | some w => Function.update rb c w
  | none => rb

/-- The row buffer that `recon_build_row` leaves behind when every weight is finite:
entries below `n` are zeroed, then every intersected cell gets its weight. -/
def builtRow (sqrtf : ℚ → ℚ) (g : ReconGrid) (ray : CTRay) (k : Nat) : ℚ :=
  if k < g.ny.toNat * g.nx.toNat then
    match cellWeight sqrtf g.cell_size g.nx.toNat ray k with
    | some (some w) => w
    | _ => if k < g.n.toNat then 0 else g.row_buffer k
  else if k < g.n.toNat then 0 else g.row_buffer k

/-- Every weight that `recon_build_row` would store for `ray` is finite. -/
def rowFinite (sqrtf : ℚ → ℚ) (g : ReconGrid) (ray : CTRay) : Prop :=
  ∀ c, c < g.ny.toNat * g.nx.toNat → cellWeight sqrtf g.cell_size g.nx.toNat ray c ≠ none

/-- The reconstruction error: sum over the cells of `(values - ground_truth)^2`. -/
def reconError (g : ReconGrid) : ℚ :=
  ∑ i in Finset.range g.n.toNat, (g.values i - g.ground_truth i) ^ 2

/-- Two grid states have the same dimensions. -/
def sameDims (g g1 : ReconGrid) : Prop :=
  g1.nx = g.nx ∧ g1.ny = g.ny ∧ g1.cell_size = g.cell_size ∧ g1.n = g.n

/-- The pixel footprint of cell `(ix, iy)` in a raster of `w` by `h` pixels with cells
of side `s`: the pixels `(px, py)` with `ix*s <= px < min((ix+1)*s, w)` and
`iy*s <= py < min((iy+1)*s, h)`. -/
def footprint (w h s ix iy : Nat) : Finset (Nat × Nat) :=
  Finset.Ico (ix * s) (min ((ix + 1) * s) w) ×ˢ Finset.Ico (iy * s) (min ((iy + 1) * s) h)

/-- The box-filter value of cell `(ix, iy)`: the sum of the samples of its footprint,
divided by the number of pixels of the footprint and then by 255. -/
def boxAverage (pixels : Nat → Fin 256) (w h s ix iy : Nat) : ℚ :=
  (∑ p in footprint w h s ix iy, (((pixels (p.2 * w + p.1)).val : Nat) : ℚ))
    / ((footprint w h s ix iy).card : ℚ) / 255

/-- What `recon_grid_build_truth` does for the cell of flat index `c`
(`ix = c % nx`, `iy = c / nx`): `some (some v)` stores `v`, `none` is a division by a
zero `count`. -/
def truthWeight (g : ReconGrid) (pixels : Nat → Fin 256) (img_w img_h : Int) (c : Nat) :
    Option (Option ℚ) :=
  let sc := truth_cell_sums g pixels img_w img_h (c % g.nx.toNat) (c / g.nx.toNat)
  (fdiv sc.1 (sc.2 : ℚ)).map fun avg => some (avg / 255)

/-- The ray that `rayset_generate_fan` appends for source `i` at iteration `t` of the
inner loop, given the two angular steps. -/
def fanRay (cosf sinf : ℚ → ℚ) (PI : ℚ) (halfNumRays : Int) (step sstep : ℚ) (i t : Nat) :
    CTRay :=
  { ox := cosf ((i : ℚ) * step)
    oy := sinf ((i : ℚ) * step)
    dx := cosf ((i : ℚ) * step + PI + ((-halfNumRays + (t : Int) : Int) : ℚ) * sstep)
    dy := sinf ((i : ℚ) * step + PI + ((-halfNumRays + (t : Int) : Int) : ℚ) * sstep)
    length := 1 }

/-- The angle of the `j`-th ray of source `i` in a fan of `ns` sources with `R` rays
per source and angular spread `spread` (radians):
`source_angle + pi - spread/2 + j * spread/(R-1)`. -/
def fanAngle (PI : ℚ) (ns R : Nat) (spread : ℚ) (i j : Nat) : ℚ :=
  (i : ℚ) * 2 * PI / (ns : ℚ) + PI - spread / 2 + (j : ℚ) * (spread / ((R : ℚ) - 1))

/-- A call made on an arena after `arena_create`. -/
inductive ArenaOp where
  | alloc (size : Nat)
  | reset

/-- One call on an arena, together with the list of the storage returned since
creation or the last reset. -/
def arena_step (st : Arena × List Region) (op : ArenaOp) : Arena × List Region :=
  match op with
  | .alloc size => ((arena_alloc st.1 size).1, (arena_alloc st.1 size).2 :: st.2)
  | .reset => (arena_reset st.1, [])

/-- The arena reached from `arena_create` by a sequence of `arena_alloc` and
`arena_reset` calls, and the storage returned since creation or the last reset. -/
def arena_run (ops : List ArenaOp) : Arena × List Region :=
  ops.foldl arena_step (arena_create, [])

/-- The block of number `id`, blocks being numbered in order of creation (the head of
the chain is the newest block). -/
def blockAt (a : Arena) (id : Nat) : Option ArenaBlock :=
  a.reverse[id]?

/-- A grid state with two cells, row `(1, 2)` and values `(3, 4)`. -/
def demoGrid : ReconGrid :=
  { values := fun i => if i = 0 then 3 else 4
    ground_truth := fun _ => 0
    row_buffer := fun i => if i = 0 then 1 else 2
    nx := 2
    ny := 1
    cell_size := 1
    n := 2 }

/-- The unit square `[0,0]-[1,1]`. -/
def unitSquare : Rect :=
  { xmin := 0, ymin := 0, xmax := 1, ymax := 1 }

/-- A square root on the rationals that is exact on squares of rationals, used to
instantiate the `sqrtf` parameter. -/
def sqrtOnSquares (q : ℚ) : ℚ := Rat.sqrt q

/-- The ray that `rayset_fan_translate` stores in place of `ray` when the set moves
from centre `(cx, cy)`, radius `r` to centre `(ncx, ncy)`, radius `nr`. -/
def translatedRay (cx cy r ncx ncy nr : ℚ) (ray : CTRay) : CTRay :=
  { ray with
    ox := ncx + (ray.ox - cx) / r * nr
    oy := ncy + (ray.oy - cy) / r * nr
    length := nr * 2 }

/-- A fan set of two rays stored around centre `(0, 0)` with radius 1. -/
def demoRaySet : RaySet :=
  { rays := fun i =>
      if i = 0 then { ox := 1, oy := 0, dx := -1, dy := 0, length := 1 }
      else { ox := -1, oy := 0, dx := 1, dy := 0, length := 1 }
    projections := fun _ => 0
    count := 2
    max_count := 2
    type := RaySetType.RAY_MODE_FAN
    metadata := { fan := { cx := 0, cy := 0, radius := 1, num_sources := 2,
                           num_rays_per_source := 1, angle_spread_rad := 0 } } }

/-- The set `demoRaySet` after `rayset_translate` to the box `(0, 0, 4, 2)`, that is
to centre `(2, 1)` and radius 2. -/
def demoRaySetMoved : RaySet :=
  { demoRaySet with
    rays := fun j =>
      if j < 2 then translatedRay 0 0 1 2 1 2 (demoRaySet.rays j) else demoRaySet.rays j
    metadata := { fan := { demoRaySet.metadata.fan with cx := 2, cy := 1, radius := 2 } } }

/-- A grid of one cell of side 1 whose ground truth is 1 and whose values are 0. -/
def oneCellGrid : ReconGrid :=
  { values := fun _ => 0
    ground_truth := fun _ => 1
    row_buffer := fun _ => 0
    nx := 1
    ny := 1
    cell_size := 1
    n := 1 }

/-- The horizontal ray from `(-1, 1/2)` in direction `(1, 0)`. -/
def horizontalRay : CTRay :=
  { ox := -1, oy := 1 / 2, dx := 1, dy := 0, length := 1 }

/-- A fan set of one source with the single ray `horizontalRay`. -/
def oneRaySet : RaySet :=
  { rays := fun _ => horizontalRay
    projections := fun _ => 0
    count := 1
    max_count := 1
    type := RaySetType.RAY_MODE_FAN
    metadata := { fan := { cx := 0, cy := 0, radius := 1, num_sources := 1,
                           num_rays_per_source := 1, angle_spread_rad := 0 } } }

/-- The function `recon_process_ray` applied to the rays of the given indices, in list
order, each with the projection stored for it. -/
def process_rays_in_order (sqrtf : ℚ → ℚ) (g : ReconGrid) (rs : RaySet) (idxs : List Nat) :
    Option ReconGrid :=
  idxs.foldlM (fun g1 i => recon_process_ray sqrtf g1 (rs.rays i) (rs.projections i)) g

/-- A set in parallel mode, with the rays of `demoRaySet`. -/
def demoParallelSet : RaySet :=
  { demoRaySet with type := RaySetType.RAY_MODE_PARALLEL }

/-- The grid `oneCellGrid` with other contents in its scratch row. -/
def oneCellGridDirty : ReconGrid :=
  { oneCellGrid with row_buffer := fun _ => 9 }

/-- A raster whose sample at index `i` is `i mod 256`. -/
def rampPixels (i : Nat) : Fin 256 := Fin.ofNat i

/-- A rational stand-in for the constant `PI`, used to instantiate the parameter. -/
def demoPI : ℚ := 355 / 113

/-- A square wave of period `2 * demoPI`, used to instantiate `cosf`: it changes sign
when its argument moves by `demoPI`. -/
def squareCos (x : ℚ) : ℚ := if Even ⌊x / demoPI⌋ then 1 else -1

/-- The wave `squareCos` shifted by `demoPI / 2`, used to instantiate `sinf`. -/
def squareSin (x : ℚ) : ℚ := squareCos (x - demoPI / 2)

theorem forLoop_update_apply (n : Nat) (f : Nat → ℚ → ℚ) (v : Nat → ℚ) (j : Nat) :
    forLoop n (fun i w => Function.update w i (f i (w i))) v j
      = if j < n then f j (v j) else v j := by
  induction n with
  | zero => simp [forLoop]
  | succ k ih =>
    simp only [forLoop]
    by_cases hj : j = k
    · subst hj
      simp [ih]
    · rw [Function.update_noteq hj, ih]
      by_cases h1 : j < k
      · simp [h1, Nat.lt_succ_of_lt h1]
      · have h2 : ¬ j < k + 1 := by omega
        simp [h1, h2]

theorem kaczmarz_sums_eq (g : ReconGrid) :
    kaczmarz_sums g
      = (dot g.n.toNat g.row_buffer g.values, dot g.n.toNat g.row_buffer g.row_buffer) := by
  unfold kaczmarz_sums dot
  induction g.n.toNat with
  | zero => simp [forLoop]
  | succ k ih => simp only [forLoop, Finset.sum_range_succ]; rw [ih]

theorem kaczmarz_values_apply (g : ReconGrid) (p : ℚ) (j : Nat)
    (h : ¬ dot g.n.toNat g.row_buffer g.row_buffer < ROW_NORM_EPS) :
    (recon_kaczmarz_step g p).values j
      = if j < g.n.toNat then
          g.values j + (p - dot g.n.toNat g.row_buffer g.values)
            / dot g.n.toNat g.row_buffer g.row_buffer * g.row_buffer j
        else g.values j := by
  unfold recon_kaczmarz_step
  simp only [kaczmarz_sums_eq, h, if_false]
  exact forLoop_update_apply g.n.toNat
    (fun i x => x + (p - dot g.n.toNat g.row_buffer g.values)
      / dot g.n.toNat g.row_buffer g.row_buffer * g.row_buffer i) g.values j

theorem ROW_NORM_EPS_pos : 0 < ROW_NORM_EPS := by
  unfold ROW_NORM_EPS; norm_num

theorem kaczmarz_row_buffer (g : ReconGrid) (p : ℚ) :
    (recon_kaczmarz_step g p).row_buffer = g.row_buffer := by
  unfold recon_kaczmarz_step
  simp only
  split <;> rfl

/-- After a step that is not skipped, the row equation holds. -/
theorem kaczmarz_dot_eq (g : ReconGrid) (p : ℚ)
    (h : ROW_NORM_EPS ≤ dot g.n.toNat g.row_buffer g.row_buffer) :
    dot g.n.toNat g.row_buffer (recon_kaczmarz_step g p).values = p := by
  have hn : ¬ dot g.n.toNat g.row_buffer g.row_buffer < ROW_NORM_EPS := not_lt.mpr h
  have hpos : dot g.n.toNat g.row_buffer g.row_buffer ≠ 0 :=
    ne_of_gt (lt_of_lt_of_le ROW_NORM_EPS_pos h)
  have key : dot g.n.toNat g.row_buffer (recon_kaczmarz_step g p).values
      = dot g.n.toNat g.row_buffer g.values
        + (p - dot g.n.toNat g.row_buffer g.values)
          / dot g.n.toNat g.row_buffer g.row_buffer
          * dot g.n.toNat g.row_buffer g.row_buffer := by
    simp only [dot, Finset.mul_sum, ← Finset.sum_add_distrib]
    refine Finset.sum_congr rfl (fun i hi => ?_)
    have := kaczmarz_values_apply g p i hn
    simp only [dot] at this
    rw [this, if_pos (Finset.mem_range.mp hi)]
    ring
  rw [key, div_mul_cancel₀ _ hpos]
  ring

theorem kaczmarz_skip (g : ReconGrid) (p : ℚ)
    (h : dot g.n.toNat g.row_buffer g.row_buffer < ROW_NORM_EPS) :
    recon_kaczmarz_step g p = g := by
  unfold recon_kaczmarz_step
  simp only [kaczmarz_sums_eq, h, if_true]

/-- The change made by a step that is not skipped is a multiple of the row. -/
theorem kaczmarz_change (g : ReconGrid) (p : ℚ)
    (h : ROW_NORM_EPS ≤ dot g.n.toNat g.row_buffer g.row_buffer) (i : Nat)
    (hi : i < g.n.toNat) :
    (recon_kaczmarz_step g p).values i - g.values i
      = (p - dot g.n.toNat g.row_buffer g.values)
          / dot g.n.toNat g.row_buffer g.row_buffer * g.row_buffer i := by
  rw [kaczmarz_values_apply g p i (not_lt.mpr h), if_pos hi]
  ring

/-- Pythagoras for a step that is not skipped: for every `z` on the hyperplane
of the ray, the old distance to `z` splits into the size of the change and the
new distance to `z`. -/
theorem kaczmarz_pythagoras (g : ReconGrid) (p : ℚ) (z : Nat → ℚ)
    (h : ROW_NORM_EPS ≤ dot g.n.toNat g.row_buffer g.row_buffer)
    (hz : dot g.n.toNat g.row_buffer z = p) :
    sqDist g.n.toNat g.values z
      = sqDist g.n.toNat g.values (recon_kaczmarz_step g p).values
        + sqDist g.n.toNat (recon_kaczmarz_step g p).values z := by
  have hdot := kaczmarz_dot_eq g p h
  have hcross : ∑ i in Finset.range g.n.toNat,
      (g.values i - (recon_kaczmarz_step g p).values i)
        * ((recon_kaczmarz_step g p).values i - z i) = 0 := by
    have e : ∀ i ∈ Finset.range g.n.toNat,
        (g.values i - (recon_kaczmarz_step g p).values i)
          * ((recon_kaczmarz_step g p).values i - z i)
        = (-((p - dot g.n.toNat g.row_buffer g.values)
              / dot g.n.toNat g.row_buffer g.row_buffer))
          * (g.row_buffer i * (recon_kaczmarz_step g p).values i - g.row_buffer i * z i) := by
      intro i hi
      have hc := kaczmarz_change g p h i (Finset.mem_range.mp hi)
      have : g.values i - (recon_kaczmarz_step g p).values i
          = -((p - dot g.n.toNat g.row_buffer g.values)
              / dot g.n.toNat g.row_buffer g.row_buffer * g.row_buffer i) := by
        rw [← hc]; ring
      rw [this]; ring
    rw [Finset.sum_congr rfl e, ← Finset.mul_sum, Finset.sum_sub_distrib]
    have h1 : ∑ i in Finset.range g.n.toNat,
        g.row_buffer i * (recon_kaczmarz_step g p).values i = p := hdot
    have h2 : ∑ i in Finset.range g.n.toNat, g.row_buffer i * z i = p := hz
    rw [h1, h2]; ring
  unfold sqDist
  rw [← Finset.sum_add_distrib]
  have e2 : ∀ i ∈ Finset.range g.n.toNat, (g.values i - z i) ^ 2
      = ((g.values i - (recon_kaczmarz_step g p).values i) ^ 2
          + ((recon_kaczmarz_step g p).values i - z i) ^ 2)
        + 2 * ((g.values i - (recon_kaczmarz_step g p).values i)
          * ((recon_kaczmarz_step g p).values i - z i)) := by
    intro i _; ring
  rw [Finset.sum_congr rfl e2, Finset.sum_add_distrib, ← Finset.mul_sum, hcross]
  ring

theorem sqDist_nonneg (n : Nat) (a b : Nat → ℚ) : 0 ≤ sqDist n a b :=
  Finset.sum_nonneg (fun i _ => sq_nonneg (a i - b i))

/-! ## Claims on `recon_kaczmarz_step` -/

/-- C1: for every grid state and every projection `p`, if the sum of squared
`row_buffer` entries is at least `1e-12`, then after `recon_kaczmarz_step g p` the
dot product of `row_buffer` with the updated values equals `p`, and `row_buffer`
is unchanged. -/
theorem kaczmarz_step_solves_ray (g : ReconGrid) (p : ℚ)
    (h : ROW_NORM_EPS ≤ ∑ i in Finset.range g.n.toNat, g.row_buffer i * g.row_buffer i) :
    (∑ i in Finset.range g.n.toNat,
        (recon_kaczmarz_step g p).row_buffer i * (recon_kaczmarz_step g p).values i) = p
      ∧ (recon_kaczmarz_step g p).row_buffer = g.row_buffer := by
  refine ⟨?_, kaczmarz_row_buffer g p⟩
  rw [kaczmarz_row_buffer]
  exact kaczmarz_dot_eq g p h

theorem demoGrid_row_norm :
    ROW_NORM_EPS ≤ ∑ i in Finset.range demoGrid.n.toNat,
      demoGrid.row_buffer i * demoGrid.row_buffer i := by
  have hn : demoGrid.n.toNat = 2 := rfl
  rw [hn]
  norm_num [Finset.sum_range_succ, demoGrid, ROW_NORM_EPS]

/-- Instance of C1 on `demoGrid` with projection 5. -/
theorem kaczmarz_step_solves_ray_witness :
    (∑ i in Finset.range demoGrid.n.toNat,
        (recon_kaczmarz_step demoGrid 5).row_buffer i
          * (recon_kaczmarz_step demoGrid 5).values i) = 5
      ∧ (recon_kaczmarz_step demoGrid 5).row_buffer = demoGrid.row_buffer :=
  kaczmarz_step_solves_ray demoGrid 5 demoGrid_row_norm

theorem axis_iff (lo hi o d t : ℚ) (hd : d ≠ 0) :
    (lo ≤ o + t * d ∧ o + t * d ≤ hi) ↔ (axisEntry lo hi o d ≤ t ∧ t ≤ axisExit lo hi o d) := by
  unfold axisEntry axisExit
  rcases lt_or_gt_of_ne hd with hneg | hpos
  · have h1 : ¬ (-d < 0) := by linarith
    have hnd : 0 < -d := by linarith
    simp only [h1, if_false]
    rw [div_le_iff_of_neg hneg, le_div_iff₀ hnd]
    constructor
    · rintro ⟨a, b⟩; constructor <;> linarith
    · rintro ⟨a, b⟩; constructor <;> linarith
  · have h1 : -d < 0 := by linarith
    simp only [h1, if_true]
    rw [div_le_iff_of_neg h1, le_div_iff₀ hpos]
    constructor
    · rintro ⟨a, b⟩; constructor <;> linarith
    · rintro ⟨a, b⟩; constructor <;> linarith

theorem lb_params_eq (r : Rect) (ox oy dx dy : ℚ) :
    lb_params r ox oy dx dy
      = (0 :: ((if dx ≠ 0 then [axisEntry r.xmin r.xmax ox dx] else [])
              ++ (if dy ≠ 0 then [axisEntry r.ymin r.ymax oy dy] else [])),
         XFloat.posInf :: ((if dx ≠ 0 then [XFloat.fin (axisExit r.xmin r.xmax ox dx)] else [])
              ++ (if dy ≠ 0 then [XFloat.fin (axisExit r.ymin r.ymax oy dy)] else []))) := by
  unfold lb_params axisEntry axisExit
  by_cases hx : dx = 0 <;> by_cases hy : dy = 0 <;>
    by_cases h1 : -dx < 0 <;> by_cases h2 : -dy < 0 <;> simp [hx, hy, h1, h2]

theorem lb_u1_two (a b : ℚ) : lb_u1 [0, a, b] = max (max 0 a) b := by
  simp only [lb_u1, List.foldl]
  rw [max_def, max_def]
  by_cases h1 : a > 0 <;> by_cases h2 : b > a <;> by_cases h3 : b > 0 <;>
    simp [h1, h2, h3, le_of_lt, not_le.mpr, not_lt.mp] <;>
    first
      | linarith
      | (split_ifs <;> linarith)

theorem lb_u1_one (a : ℚ) : lb_u1 [0, a] = max 0 a := by
  simp only [lb_u1, List.foldl]
  rw [max_def]
  by_cases h1 : a > 0
  · simp [h1, le_of_lt h1]
  · have : a ≤ 0 := not_lt.mp h1
    rcases eq_or_lt_of_le this with h | h
    · simp [h]
    · simp [h1, not_le.mpr h]

theorem lb_u2_two (a b : ℚ) :
    lb_u2 [XFloat.posInf, XFloat.fin a, XFloat.fin b] = XFloat.fin (min a b) := by
  simp only [lb_u2, List.foldl, XFloat.lt]
  rw [min_def]
  by_cases h : b < a
  · simp [h, not_le.mpr h]
  · simp [h, not_lt.mp h]

theorem lb_u2_one (a : ℚ) : lb_u2 [XFloat.posInf, XFloat.fin a] = XFloat.fin a := by
  simp [lb_u2, List.foldl, XFloat.lt]

/-- For a ray of non-zero direction that passes the parallel test, the two scans
yield finite parameters `u1 >= 0` and `u2` such that the points of the ray in the
closed rectangle are exactly those of parameter `u1 <= t <= u2`. -/
theorem lb_scan_spec (r : Rect) (ox oy dx dy : ℚ) (hd : ¬ (dx = 0 ∧ dy = 0))
    (hp : ¬ parallelOutside r ox oy dx dy) :
    ∃ u1 u2 : ℚ, lb_u1 (lb_params r ox oy dx dy).1 = u1
      ∧ lb_u2 (lb_params r ox oy dx dy).2 = XFloat.fin u2
      ∧ 0 ≤ u1
      ∧ ∀ t, (0 ≤ t ∧ inRect r (ox + t * dx) (oy + t * dy)) ↔ (u1 ≤ t ∧ t ≤ u2) := by
  rw [lb_params_eq]
  unfold parallelOutside at hp
  simp only [not_or, not_and, not_lt] at hp
  obtain ⟨hp1, hp2, hp3, hp4⟩ := hp
  by_cases hx : dx = 0
  · have hy : dy ≠ 0 := fun h => hd ⟨hx, h⟩
    refine ⟨max 0 (axisEntry r.ymin r.ymax oy dy), axisExit r.ymin r.ymax oy dy, ?_, ?_,
      le_max_left _ _, ?_⟩
    · simp only [hx, hy, ne_eq, not_true_eq_false, not_false_eq_true, if_true, if_false,
        List.nil_append]
      exact lb_u1_one _
    · simp only [hx, hy, ne_eq, not_true_eq_false, not_false_eq_true, if_true, if_false,
        List.nil_append]
      exact lb_u2_one _
    · intro t
      have hax := axis_iff r.ymin r.ymax oy dy t hy
      have h1 := hp1 (by rw [hx]; simp)
      have h2 := hp2 hx
      unfold inRect
      rw [max_le_iff, hx]
      constructor
      · rintro ⟨h0, a, b, c, d⟩
        have := hax.mp ⟨c, d⟩
        exact ⟨⟨h0, this.1⟩, this.2⟩
      · rintro ⟨⟨h0, a⟩, b⟩
        have := hax.mpr ⟨a, b⟩
        refine ⟨h0, by linarith, by linarith, this.1, this.2⟩
  · by_cases hy : dy = 0
    · refine ⟨max 0 (axisEntry r.xmin r.xmax ox dx), axisExit r.xmin r.xmax ox dx, ?_, ?_,
        le_max_left _ _, ?_⟩
      · simp only [hx, hy, ne_eq, not_true_eq_false, not_false_eq_true, if_true, if_false,
          List.append_nil]
        exact lb_u1_one _
      · simp only [hx, hy, ne_eq, not_true_eq_false, not_false_eq_true, if_true, if_false,
          List.append_nil]
        exact lb_u2_one _
      · intro t
        have hax := axis_iff r.xmin r.xmax ox dx t hx
        have h3 := hp3 (by rw [hy]; simp)
        have h4 := hp4 hy
        unfold inRect
        rw [max_le_iff, hy]
        constructor
        · rintro ⟨h0, a, b, c, d⟩
          have := hax.mp ⟨a, b⟩
          exact ⟨⟨h0, this.1⟩, this.2⟩
        · rintro ⟨⟨h0, a⟩, b⟩
          have := hax.mpr ⟨a, b⟩
          refine ⟨h0, this.1, this.2, by linarith, by linarith⟩
    · refine ⟨max (max 0 (axisEntry r.xmin r.xmax ox dx)) (axisEntry r.ymin r.ymax oy dy),
        min (axisExit r.xmin r.xmax ox dx) (axisExit r.ymin r.ymax oy dy), ?_, ?_,
        le_trans (le_max_left _ _) (le_max_left _ _), ?_⟩
      · simp only [hx, hy, ne_eq, not_false_eq_true, if_true, List.singleton_append]
        exact lb_u1_two _ _
      · simp only [hx, hy, ne_eq, not_false_eq_true, if_true, List.singleton_append]
        exact lb_u2_two _ _
      · intro t
        have hax := axis_iff r.xmin r.xmax ox dx t hx
        have hay := axis_iff r.ymin r.ymax oy dy t hy
        unfold inRect
        rw [max_le_iff, max_le_iff, le_min_iff]
        constructor
        · rintro ⟨h0, a, b, c, d⟩
          have h1 := hax.mp ⟨a, b⟩
          have h2 := hay.mp ⟨c, d⟩
          exact ⟨⟨⟨h0, h1.1⟩, h2.1⟩, h1.2, h2.2⟩
        · rintro ⟨⟨⟨h0, a⟩, c⟩, b, d⟩
          have h1 := hax.mpr ⟨a, b⟩
          have h2 := hay.mpr ⟨c, d⟩
          exact ⟨h0, h1.1, h1.2, h2.1, h2.2⟩

theorem lb_parallel_miss (sqrtf : ℚ → ℚ) (r : Rect) (ox oy dx dy : ℚ)
    (h : parallelOutside r ox oy dx dy) :
    liang_barsky_ray sqrtf r ox oy dx dy = LiangBarskyResult.miss := by
  have h' : (-dx = 0 ∧ ox - r.xmin < 0) ∨ (dx = 0 ∧ r.xmax - ox < 0) ∨
      (-dy = 0 ∧ oy - r.ymin < 0) ∨ (dy = 0 ∧ r.ymax - oy < 0) := h
  simp only [liang_barsky_ray, h', if_true]

/-- The result of `liang_barsky_ray` once the scans are known to be finite. -/
theorem lb_result (sqrtf : ℚ → ℚ) (r : Rect) (ox oy dx dy u1 u2 : ℚ)
    (hp : ¬ parallelOutside r ox oy dx dy)
    (h1 : lb_u1 (lb_params r ox oy dx dy).1 = u1)
    (h2 : lb_u2 (lb_params r ox oy dx dy).2 = XFloat.fin u2)
    (h0 : 0 ≤ u1) :
    liang_barsky_ray sqrtf r ox oy dx dy
      = if u2 < u1 then LiangBarskyResult.miss
        else { intersects := true
               length := XFloat.fin ((u2 - u1) * sqrtf (dx * dx + dy * dy))
               t1 := XFloat.fin u1
               t2 := XFloat.fin u2 } := by
  have hp' : ¬ ((-dx = 0 ∧ ox - r.xmin < 0) ∨ (dx = 0 ∧ r.xmax - ox < 0) ∨
      (-dy = 0 ∧ oy - r.ymin < 0) ∨ (dy = 0 ∧ r.ymax - oy < 0)) := hp
  have hc : ¬ u1 < 0 := not_lt.mpr h0
  simp only [liang_barsky_ray, hp', if_false, h1, h2, XFloat.lt, decide_eq_true_eq, hc,
    XFloat.sub, XFloat.mul]
  by_cases h : u2 < u1
  · simp [h]
  · have h3 : ¬ u2 < 0 := by
      have := not_lt.mp h
      exact not_lt.mpr (le_trans h0 this)
    simp [h, h3]

/-! ## Claims on `liang_barsky_ray` -/

theorem sqrtOnSquares_one : sqrtOnSquares 1 = 1 := by
  unfold sqrtOnSquares
  have h : Rat.sqrt (1 * 1) = |1| := Rat.sqrt_eq 1
  rw [mul_one, abs_one] at h
  exact h

/-- Horizontal ray entering a rectangle from the left. -/
theorem lb_horizontal (sqrtf : ℚ → ℚ) (hs : sqrtf 1 = 1) (r : Rect) (ox oy : ℚ)
    (hx : r.xmin < r.xmax) (ho : ox ≤ r.xmin) (hy1 : r.ymin ≤ oy) (hy2 : oy ≤ r.ymax) :
    liang_barsky_ray sqrtf r ox oy 1 0
      = { intersects := true
          length := XFloat.fin (r.xmax - r.xmin)
          t1 := XFloat.fin (r.xmin - ox)
          t2 := XFloat.fin (r.xmax - ox) } := by
  have hp : ¬ parallelOutside r ox oy 1 0 := by
    unfold parallelOutside
    simp only [not_or, not_and, not_lt]
    refine ⟨fun h => ?_, fun h => ?_, fun _ => by linarith, fun _ => by linarith⟩
    · norm_num at h
    · norm_num at h
  have h1 : lb_u1 (lb_params r ox oy 1 0).1 = r.xmin - ox := by
    rw [lb_params_eq]
    simp only [ne_eq, one_ne_zero, not_false_eq_true, if_true, not_true_eq_false, if_false,
      List.append_nil]
    rw [lb_u1_one]
    have : axisEntry r.xmin r.xmax ox 1 = r.xmin - ox := by
      unfold axisEntry
      rw [if_pos (by norm_num), div_neg, div_one]
      ring
    rw [this]
    exact max_eq_right (by linarith)
  have h2 : lb_u2 (lb_params r ox oy 1 0).2 = XFloat.fin (r.xmax - ox) := by
    rw [lb_params_eq]
    simp only [ne_eq, one_ne_zero, not_false_eq_true, if_true, not_true_eq_false, if_false,
      List.append_nil]
    rw [lb_u2_one]
    have : axisExit r.xmin r.xmax ox 1 = r.xmax - ox := by
      unfold axisExit
      rw [if_pos (by norm_num), div_one]
    rw [this]
  rw [lb_result sqrtf r ox oy 1 0 _ _ hp h1 h2 (by linarith)]
  have hlt : ¬ (r.xmax - ox < r.xmin - ox) := by linarith
  rw [if_neg hlt]
  have e : (1 : ℚ) * 1 + 0 * 0 = 1 := by norm_num
  rw [e, hs]
  have e2 : (r.xmax - ox - (r.xmin - ox)) * 1 = r.xmax - r.xmin := by ring
  rw [e2]

/-- C8: for every rectangle (any four bounds), every `oy` and every `dy`, a ray with
`dx = 0` whose origin has `ox < xmin` or `ox > xmax` makes `liang_barsky_ray` report
`intersects = false`. -/
theorem liang_barsky_ray_parallel_miss (sqrtf : ℚ → ℚ) (r : Rect) (ox oy dy : ℚ)
    (h : ox < r.xmin ∨ r.xmax < ox) :
    (liang_barsky_ray sqrtf r ox oy 0 dy).intersects = false := by
  have hp : parallelOutside r ox oy 0 dy := by
    unfold parallelOutside
    rcases h with h | h
    · exact Or.inl ⟨by norm_num, by linarith⟩
    · exact Or.inr (Or.inl ⟨rfl, by linarith⟩)
  rw [lb_parallel_miss sqrtf r ox oy 0 dy hp]
  rfl

/-- Instance of C8: direction `(0, 1)` from `(2, 0)` against the unit square. -/
theorem liang_barsky_ray_parallel_miss_witness :
    (liang_barsky_ray sqrtOnSquares unitSquare 2 0 0 1).intersects = false :=
  liang_barsky_ray_parallel_miss sqrtOnSquares unitSquare 2 0 1
    (Or.inr (by norm_num [unitSquare]))

/-! ## Lemmas on ray sets -/

theorem forLoopM_update_eq {α : Type} (n : Nat) (body : Nat → (Nat → α) → Option (Nat → α))
    (f : Nat → α → α) (hb : ∀ i v, body i v = some (Function.update v i (f i (v i))))
    (v : Nat → α) :
    forLoopM n body v = some (fun j => if j < n then f j (v j) else v j) := by
  induction n with
  | zero => simp [forLoopM]
  | succ k ih =>
    simp only [forLoopM, ih, Option.some_bind, hb]
    congr 1
    funext j
    by_cases hj : j = k
    · subst hj
      simp
    · rw [Function.update_noteq hj]
      by_cases h1 : j < k
      · simp [h1, Nat.lt_succ_of_lt h1]
      · have h2 : ¬ j < k + 1 := by omega
        simp [h1, h2]

/-- With a non-zero stored radius `rayset_fan_translate` succeeds, and its result is
the set with every ray below `count` replaced by `translatedRay` of it. -/
theorem fan_translate_eq (rs : RaySet) (ncx ncy nr : ℚ) (hr : rs.metadata.fan.radius ≠ 0) :
    rayset_fan_translate rs ncx ncy nr
      = some { rs with
          rays := fun j =>
            if j < rs.count then
              translatedRay rs.metadata.fan.cx rs.metadata.fan.cy rs.metadata.fan.radius
                ncx ncy nr (rs.rays j)
            else rs.rays j
          metadata := { fan := { rs.metadata.fan with cx := ncx, cy := ncy, radius := nr } } } := by
  unfold rayset_fan_translate
  simp only
  rw [forLoopM_update_eq rs.count _
    (fun _ ray => translatedRay rs.metadata.fan.cx rs.metadata.fan.cy rs.metadata.fan.radius
      ncx ncy nr ray)]
  · rfl
  · intro i v
    simp [fdiv, hr, translatedRay]

/-- Whenever `rayset_fan_translate` succeeds, the stored centre and radius are the
target. -/
theorem fan_translate_metadata (rs rs1 : RaySet) (ncx ncy nr : ℚ)
    (h : rayset_fan_translate rs ncx ncy nr = some rs1) :
    fan_same rs1.metadata.fan ncx ncy nr = true := by
  unfold rayset_fan_translate at h
  simp only [Option.map_eq_some'] at h
  obtain ⟨rays, _, h2⟩ := h
  rw [← h2]
  simp [fan_same]

/-- After a successful `rayset_translate` a second call with the same box stores
nothing. -/
theorem translate_twice (rs : RaySet) (x y w h : Int) (b : Bool) (rs1 : RaySet)
    (h1 : rayset_translate rs x y w h = some (b, rs1)) :
    rayset_translate rs1 x y w h = some (false, rs1) := by
  unfold rayset_translate at h1
  simp only at h1
  by_cases hs : fan_same rs.metadata.fan ((x : ℚ) + (w : ℚ) / 2) ((y : ℚ) + (h : ℚ) / 2)
      ((1 / 2) * max (w : ℚ) (h : ℚ)) = true
  · simp only [hs, Bool.not_true, Bool.false_eq_true, if_false, Option.some.injEq,
      Prod.mk.injEq] at h1
    obtain ⟨_, h3⟩ := h1
    subst h3
    unfold rayset_translate
    simp only [hs, Bool.not_true, Bool.false_eq_true, if_false]
  · simp only [hs, Bool.not_eq_true] at h1
    simp only [Bool.not_eq_true] at hs
    simp only [hs, Bool.not_false, if_true, Option.map_eq_some', Prod.mk.injEq] at h1
    obtain ⟨rs2, h2, _, h3⟩ := h1
    subst h3
    have hm := fan_translate_metadata rs rs2 _ _ _ h2
    unfold rayset_translate
    simp only [hm, Bool.not_true, Bool.false_eq_true, if_false]

/-- With a non-zero stored radius `rayset_translate` succeeds. -/
theorem translate_total (rs : RaySet) (x y w h : Int) (hr : rs.metadata.fan.radius ≠ 0) :
    ∃ rs1, rayset_translate rs x y w h = some (false, rs1) := by
  unfold rayset_translate
  simp only
  split
  · rw [fan_translate_eq rs _ _ _ hr]
    exact ⟨_, rfl⟩
  · exact ⟨rs, rfl⟩

/-! ## Claims on ray sets -/

/-- C9: for every ray set and every bounding box `(x, y, w, h)`, a second call of
`rayset_translate` with the same box right after a first one changes nothing: the
ray set after the second call (origins, directions, lengths, stored centre and
radius) is the ray set after the first.  The first call has a result whenever the
stored radius is not zero. -/
theorem rayset_translate_idempotent (rs : RaySet) (x y w h : Int) :
    (rs.metadata.fan.radius ≠ 0 → ∃ rs1, rayset_translate rs x y w h = some (false, rs1))
      ∧ ∀ (b : Bool) (rs1 : RaySet), rayset_translate rs x y w h = some (b, rs1) →
          rayset_translate rs1 x y w h = some (false, rs1) :=
  ⟨translate_total rs x y w h, translate_twice rs x y w h⟩

theorem demoRaySet_translate :
    rayset_translate demoRaySet 0 0 4 2 = some (false, demoRaySetMoved) := by
  have hbox : ((0 : Int) : ℚ) + ((4 : Int) : ℚ) / 2 = 2
      ∧ ((0 : Int) : ℚ) + ((2 : Int) : ℚ) / 2 = 1
      ∧ (1 / 2 : ℚ) * max ((4 : Int) : ℚ) ((2 : Int) : ℚ) = 2 := by
    refine ⟨by norm_num, by norm_num, ?_⟩
    rw [max_eq_left (by norm_num)]
    norm_num
  obtain ⟨e1, e2, e3⟩ := hbox
  unfold rayset_translate
  simp only [e1, e2, e3]
  have hs : fan_same demoRaySet.metadata.fan 2 1 2 = false := by
    simp [fan_same, demoRaySet]
  rw [hs, fan_translate_eq demoRaySet 2 1 2 (by simp [demoRaySet])]
  rfl

/-- Instance of C9 on `demoRaySet` and the box `(0, 0, 4, 2)`. -/
theorem rayset_translate_idempotent_witness :
    rayset_translate demoRaySet 0 0 4 2 = some (false, demoRaySetMoved)
      ∧ rayset_translate demoRaySetMoved 0 0 4 2 = some (false, demoRaySetMoved) :=
  ⟨demoRaySet_translate,
    (rayset_translate_idempotent demoRaySet 0 0 4 2).2 false demoRaySetMoved
      demoRaySet_translate⟩

/-- C10: for every ray set with stored centre `(cx, cy)` and radius `r != 0` and every
target `(cx', cy', r')`, `rayset_fan_translate` sets each ray's origin to
`(cx' + ((ox - cx)/r)*r', cy' + ((oy - cy)/r)*r')` and its length to `2*r'`, stores
`(cx', cy', r')` as the new centre and radius, and leaves every ray's direction, the
ray count, the projections, `num_sources`, `num_rays_per_source` and the angular
spread unchanged. -/
theorem rayset_fan_translate_effect (rs : RaySet) (ncx ncy nr : ℚ)
    (hr : rs.metadata.fan.radius ≠ 0) :
    ∃ rs1, rayset_fan_translate rs ncx ncy nr = some rs1
      ∧ (∀ i, i < rs.count →
          (rs1.rays i).ox
              = ncx + (((rs.rays i).ox - rs.metadata.fan.cx) / rs.metadata.fan.radius) * nr
          ∧ (rs1.rays i).oy
              = ncy + (((rs.rays i).oy - rs.metadata.fan.cy) / rs.metadata.fan.radius) * nr
          ∧ (rs1.rays i).length = 2 * nr
          ∧ (rs1.rays i).dx = (rs.rays i).dx
          ∧ (rs1.rays i).dy = (rs.rays i).dy)
      ∧ rs1.metadata.fan.cx = ncx
      ∧ rs1.metadata.fan.cy = ncy
      ∧ rs1.metadata.fan.radius = nr
      ∧ rs1.count = rs.count
      ∧ rs1.max_count = rs.max_count
      ∧ rs1.type = rs.type
      ∧ rs1.projections = rs.projections
      ∧ rs1.metadata.fan.num_sources = rs.metadata.fan.num_sources
      ∧ rs1.metadata.fan.num_rays_per_source = rs.metadata.fan.num_rays_per_source
      ∧ rs1.metadata.fan.angle_spread_rad = rs.metadata.fan.angle_spread_rad
      ∧ ∀ i, rs.count ≤ i → rs1.rays i = rs.rays i := by
  refine ⟨_, fan_translate_eq rs ncx ncy nr hr, ?_, rfl, rfl, rfl, rfl, rfl, rfl, rfl, rfl,
    rfl, rfl, ?_⟩
  · intro i hi
    refine ⟨?_, ?_, ?_, ?_, ?_⟩ <;> simp [hi, translatedRay, mul_comm]
  · intro i hi
    have : ¬ i < rs.count := by omega
    simp only [this, if_false]

/-- Instance of C10: `demoRaySet` (radius 1) moved to centre `(2, 1)`, radius 2. -/
theorem rayset_fan_translate_effect_witness :
    demoRaySet.metadata.fan.radius ≠ 0
      ∧ ∃ rs1, rayset_fan_translate demoRaySet 2 1 2 = some rs1
        ∧ (∀ i, i < demoRaySet.count →
            (rs1.rays i).ox
                = 2 + (((demoRaySet.rays i).ox - demoRaySet.metadata.fan.cx)
                    / demoRaySet.metadata.fan.radius) * 2
            ∧ (rs1.rays i).oy
                = 1 + (((demoRaySet.rays i).oy - demoRaySet.metadata.fan.cy)
                    / demoRaySet.metadata.fan.radius) * 2
            ∧ (rs1.rays i).length = 2 * 2
            ∧ (rs1.rays i).dx = (demoRaySet.rays i).dx
            ∧ (rs1.rays i).dy = (demoRaySet.rays i).dy)
        ∧ rs1.metadata.fan.cx = 2
        ∧ rs1.metadata.fan.cy = 1
        ∧ rs1.metadata.fan.radius = 2
        ∧ rs1.count = demoRaySet.count
        ∧ rs1.max_count = demoRaySet.max_count
        ∧ rs1.type = demoRaySet.type
        ∧ rs1.projections = demoRaySet.projections
        ∧ rs1.metadata.fan.num_sources = demoRaySet.metadata.fan.num_sources
        ∧ rs1.metadata.fan.num_rays_per_source = demoRaySet.metadata.fan.num_rays_per_source
        ∧ rs1.metadata.fan.angle_spread_rad = demoRaySet.metadata.fan.angle_spread_rad
        ∧ ∀ i, demoRaySet.count ≤ i → rs1.rays i = demoRaySet.rays i :=
  ⟨by simp [demoRaySet], rayset_fan_translate_effect demoRaySet 2 1 2 (by simp [demoRaySet])⟩

/-! ## Lemmas on loops that can fail -/

theorem forLoopM_congr {σ : Type} (n : Nat) (b1 b2 : Nat → σ → Option σ)
    (h : ∀ k, k < n → ∀ s, b1 k s = b2 k s) (s : σ) :
    forLoopM n b1 s = forLoopM n b2 s := by
  induction n with
  | zero => rfl
  | succ k ih =>
    simp only [forLoopM]
    rw [ih (fun j hj => h j (Nat.lt_succ_of_lt hj))]
    cases forLoopM k b2 s with
    | none => rfl
    | some s1 => exact h k (Nat.lt_succ_self k) s1

theorem forLoopM_add {σ : Type} (a b : Nat) (body : Nat → σ → Option σ) (s : σ) :
    forLoopM (a + b) body s
      = (forLoopM a body s).bind (forLoopM b (fun k => body (a + k))) := by
  induction b with
  | zero =>
    simp only [Nat.add_zero]
    cases forLoopM a body s <;> rfl
  | succ k ih =>
    have e : a + (k + 1) = (a + k) + 1 := by omega
    rw [e]
    simp only [forLoopM]
    rw [ih]
    cases forLoopM a body s <;> rfl

/-- Two nested counted loops are one loop over the flat index `c = i * m + j`. -/
theorem forLoopM_nested {σ : Type} (n m : Nat) (body : Nat → Nat → σ → Option σ) (s : σ) :
    forLoopM n (fun i s1 => forLoopM m (fun j s2 => body i j s2) s1) s
      = forLoopM (n * m) (fun c s1 => body (c / m) (c % m) s1) s := by
  induction n with
  | zero => simp [forLoopM]
  | succ k ih =>
    have e : (k + 1) * m = k * m + m := by ring
    have hl : forLoopM (k + 1) (fun i s1 => forLoopM m (fun j s2 => body i j s2) s1) s
        = (forLoopM k (fun i s1 => forLoopM m (fun j s2 => body i j s2) s1) s).bind
            (fun s1 => forLoopM m (fun j s2 => body k j s2) s1) := rfl
    rw [hl, ih, e, forLoopM_add (k * m) m]
    congr 1
    funext s1
    apply forLoopM_congr
    intro j hj s2
    have hm : 0 < m := by omega
    have h1 : (k * m + j) / m = k := by
      rw [Nat.add_comm, Nat.add_mul_div_right _ _ hm, Nat.div_eq_of_lt hj, Nat.zero_add]
    have h2 : (k * m + j) % m = j := by
      rw [Nat.add_comm, Nat.add_mul_mod_self_right, Nat.mod_eq_of_lt hj]
    rw [h1, h2]

/-- Closed form of a loop whose iteration `c` either fails, stores nothing, or
stores a value at index `c`. -/
theorem forLoopM_writes (n : Nat) (out : Nat → Option (Option ℚ)) (rb0 : Nat → ℚ) :
    forLoopM n (fun c rb => (out c).map (fun o => applyWrite o c rb)) rb0
      = if ∀ c, c < n → out c ≠ none then
          some (fun k =>
            if k < n then
              match out k with
              | some (some w) => w
              | _ => rb0 k
            else rb0 k)
        else none := by
  induction n with
  | zero => simp [forLoopM]
  | succ k ih =>
    simp only [forLoopM]
    rw [ih]
    by_cases hall : ∀ c, c < k → out c ≠ none
    · rw [if_pos hall]
      simp only [Option.some_bind]
      cases hk : out k with
      | none =>
        have : ¬ ∀ c, c < k + 1 → out c ≠ none := fun h => h k (Nat.lt_succ_self k) hk
        rw [if_neg this]
        rfl
      | some o =>
        have hall2 : ∀ c, c < k + 1 → out c ≠ none := by
          intro c hc
          rcases Nat.lt_succ_iff_lt_or_eq.mp hc with h | h
          · exact hall c h
          · rw [h, hk]; simp
        rw [if_pos hall2]
        simp only [Option.map_some']
        congr 1
        funext j
        by_cases hj : j = k
        · subst hj
          cases o with
          | none => simp [applyWrite, hk]
          | some w => simp [applyWrite, hk]
        · have hne : j ≠ k := hj
          by_cases h1 : j < k
          · have h2 : j < k + 1 := Nat.lt_succ_of_lt h1
            cases o with
            | none => simp [applyWrite, h1, h2]
            | some w => simp [applyWrite, h1, h2, Function.update_noteq hne]
          · have h2 : ¬ j < k + 1 := by omega
            cases o with
            | none => simp [applyWrite, h1, h2]
            | some w => simp [applyWrite, h1, h2, Function.update_noteq hne]
    · rw [if_neg hall]
      have : ¬ ∀ c, c < k + 1 → out c ≠ none :=
        fun h => hall (fun c hc => h c (Nat.lt_succ_of_lt hc))
      rw [if_neg this]
      rfl

/-! ## Lemmas on `recon_build_row` -/

theorem flat_index (nx : Int) (c : Nat) (h : 0 < nx.toNat) :
    (((c / nx.toNat : Nat) : Int) * nx + ((c % nx.toNat : Nat) : Int)).toNat = c := by
  have hnn : 0 ≤ nx := by
    by_contra hneg
    have : nx.toNat = 0 := Int.toNat_eq_zero.mpr (by omega)
    omega
  obtain ⟨m, rfl⟩ : ∃ m : Nat, nx = (m : Int) := ⟨nx.toNat, (Int.toNat_of_nonneg hnn).symm⟩
  simp only [Int.toNat_natCast]
  have e : ((c / m : Nat) : Int) * (m : Int) + ((c % m : Nat) : Int) = (c : Int) := by
    exact_mod_cast Nat.div_add_mod' c m
  rw [e]
  exact Int.toNat_natCast c

theorem build_row_cell_eq (sqrtf : ℚ → ℚ) (g : ReconGrid) (ray : CTRay) (c : Nat)
    (hc : c < g.ny.toNat * g.nx.toNat) (rb : Nat → ℚ) :
    build_row_cell sqrtf g ray (c / g.nx.toNat) (c % g.nx.toNat) rb
      = (cellWeight sqrtf g.cell_size g.nx.toNat ray c).map (fun o => applyWrite o c rb) := by
  have hnx : 0 < g.nx.toNat := by
    rcases Nat.eq_zero_or_pos g.nx.toNat with h | h
    · rw [h] at hc; simp at hc
    · exact h
  unfold build_row_cell cellWeight
  simp only [flat_index g.nx c hnx]
  split
  · cases (liang_barsky_ray sqrtf (cell_rect g.cell_size (c % g.nx.toNat) (c / g.nx.toNat))
        ray.ox ray.oy ray.dx ray.dy).length.toRat?.bind fun len => fdiv len (g.cell_size : ℚ) with
    | none => rfl
    | some w => rfl
  · rfl

theorem zero_loop_eq (n : Nat) (rb : Nat → ℚ) :
    forLoop n (fun i v => Function.update v i 0) rb = fun k => if k < n then 0 else rb k := by
  funext k
  exact forLoop_update_apply n (fun _ _ => 0) rb k

theorem build_row_loops (sqrtf : ℚ → ℚ) (g : ReconGrid) (ray : CTRay) (rb0 : Nat → ℚ) :
    forLoopM g.ny.toNat
        (fun iy rb => forLoopM g.nx.toNat
          (fun ix rb1 => build_row_cell sqrtf g ray iy ix rb1) rb) rb0
      = forLoopM (g.ny.toNat * g.nx.toNat)
          (fun c rb => (cellWeight sqrtf g.cell_size g.nx.toNat ray c).map
            (fun o => applyWrite o c rb)) rb0 := by
  rw [forLoopM_nested g.ny.toNat g.nx.toNat (fun iy ix rb1 => build_row_cell sqrtf g ray iy ix rb1)]
  exact forLoopM_congr _ _ _ (fun c hc rb => build_row_cell_eq sqrtf g ray c hc rb) rb0

/-- When every weight is finite, `recon_build_row` succeeds and only replaces the
row buffer, by `builtRow`. -/
theorem build_row_some (sqrtf : ℚ → ℚ) (g : ReconGrid) (ray : CTRay)
    (h : rowFinite sqrtf g ray) :
    recon_build_row sqrtf g ray = some { g with row_buffer := builtRow sqrtf g ray } := by
  unfold recon_build_row
  simp only
  have h' : ∀ c, c < g.ny.toNat * g.nx.toNat →
      cellWeight sqrtf g.cell_size g.nx.toNat ray c ≠ none := h
  rw [build_row_loops, forLoopM_writes, if_pos h', zero_loop_eq]
  simp only [Option.map_some']
  congr 2

/-- When some weight is not finite, `recon_build_row` has no result. -/
theorem build_row_none (sqrtf : ℚ → ℚ) (g : ReconGrid) (ray : CTRay)
    (h : ¬ rowFinite sqrtf g ray) :
    recon_build_row sqrtf g ray = none := by
  unfold recon_build_row
  simp only
  have h' : ¬ ∀ c, c < g.ny.toNat * g.nx.toNat →
      cellWeight sqrtf g.cell_size g.nx.toNat ray c ≠ none := h
  rw [build_row_loops, forLoopM_writes, if_neg h']
  rfl

theorem build_row_eq_some (sqrtf : ℚ → ℚ) (g g1 : ReconGrid) (ray : CTRay)
    (h : recon_build_row sqrtf g ray = some g1) :
    rowFinite sqrtf g ray ∧ g1 = { g with row_buffer := builtRow sqrtf g ray } := by
  by_cases hf : rowFinite sqrtf g ray
  · rw [build_row_some sqrtf g ray hf] at h
    exact ⟨hf, (Option.some.inj h).symm⟩
  · rw [build_row_none sqrtf g ray hf] at h
    exact absurd h (by simp)

/-- A ray of non-zero direction always gets a finite length. -/
theorem lb_length_finite (sqrtf : ℚ → ℚ) (r : Rect) (ox oy dx dy : ℚ)
    (hd : ¬ (dx = 0 ∧ dy = 0)) :
    ∃ q : ℚ, (liang_barsky_ray sqrtf r ox oy dx dy).length = XFloat.fin q := by
  by_cases hp : parallelOutside r ox oy dx dy
  · rw [lb_parallel_miss sqrtf r ox oy dx dy hp]
    exact ⟨0, rfl⟩
  · obtain ⟨u1, u2, h1, h2, h0, _⟩ := lb_scan_spec r ox oy dx dy hd hp
    rw [lb_result sqrtf r ox oy dx dy u1 u2 hp h1 h2 h0]
    by_cases h : u2 < u1
    · rw [if_pos h]; exact ⟨0, rfl⟩
    · rw [if_neg h]; exact ⟨_, rfl⟩

theorem cellWeight_ne_none (sqrtf : ℚ → ℚ) (cell_size : Int) (nx : Nat) (ray : CTRay) (c : Nat)
    (hcs : cell_size ≠ 0) (hd : ¬ (ray.dx = 0 ∧ ray.dy = 0)) :
    cellWeight sqrtf cell_size nx ray c ≠ none := by
  unfold cellWeight
  simp only
  obtain ⟨q, hq⟩ := lb_length_finite sqrtf (cell_rect cell_size (c % nx) (c / nx))
    ray.ox ray.oy ray.dx ray.dy hd
  have hcs' : (cell_size : ℚ) ≠ 0 := by exact_mod_cast hcs
  split
  · rw [hq]
    simp [XFloat.toRat?, fdiv, hcs']
  · simp

/-- For a non-zero cell size and a ray of non-zero direction every weight is finite. -/
theorem rowFinite_of_direction (sqrtf : ℚ → ℚ) (g : ReconGrid) (ray : CTRay)
    (hcs : g.cell_size ≠ 0) (hd : ¬ (ray.dx = 0 ∧ ray.dy = 0)) :
    rowFinite sqrtf g ray :=
  fun c _ => cellWeight_ne_none sqrtf g.cell_size g.nx.toNat ray c hcs hd

/-- The weight of a cell crossed from the left by a horizontal ray is 1. -/
theorem cellWeight_horizontal (sqrtf : ℚ → ℚ) (hs : sqrtf 1 = 1) (cell_size : Int) (nx : Nat)
    (ray : CTRay) (ix iy : Nat) (hix : ix < nx) (hcs : 1 ≤ cell_size)
    (hdx : ray.dx = 1) (hdy : ray.dy = 0)
    (hox : ray.ox ≤ (((ix : Int) * cell_size : Int) : ℚ))
    (hoy1 : (((iy : Int) * cell_size : Int) : ℚ) ≤ ray.oy)
    (hoy2 : ray.oy ≤ ((((iy : Int) + 1) * cell_size : Int) : ℚ)) :
    cellWeight sqrtf cell_size nx ray (iy * nx + ix) = some (some 1) := by
  have h1 : (iy * nx + ix) / nx = iy := by
    rw [Nat.add_comm, Nat.add_mul_div_right _ _ (by omega), Nat.div_eq_of_lt hix, Nat.zero_add]
  have h2 : (iy * nx + ix) % nx = ix := by
    rw [Nat.add_comm, Nat.add_mul_mod_self_right, Nat.mod_eq_of_lt hix]
  have hcsq : (0 : ℚ) < (cell_size : ℚ) := by exact_mod_cast (by omega : (0 : Int) < cell_size)
  have hwidth : (cell_rect cell_size ix iy).xmax - (cell_rect cell_size ix iy).xmin
      = (cell_size : ℚ) := by
    simp only [cell_rect]
    push_cast
    ring
  have hlt : (cell_rect cell_size ix iy).xmin < (cell_rect cell_size ix iy).xmax := by
    linarith
  unfold cellWeight
  simp only [h1, h2, hdx, hdy]
  rw [lb_horizontal sqrtf hs (cell_rect cell_size ix iy) ray.ox ray.oy hlt hox hoy1 hoy2]
  simp only [if_true, XFloat.toRat?, Option.some_bind, hwidth, fdiv, ne_of_gt hcsq, if_false,
    Option.map_some', div_self (ne_of_gt hcsq)]

/-! ## Claims on `recon_build_row` -/

theorem sameDims_refl (g : ReconGrid) : sameDims g g := ⟨rfl, rfl, rfl, rfl⟩

theorem sameDims_trans (g g1 g2 : ReconGrid) (h1 : sameDims g g1) (h2 : sameDims g1 g2) :
    sameDims g g2 := by
  obtain ⟨a1, a2, a3, a4⟩ := h1
  obtain ⟨b1, b2, b3, b4⟩ := h2
  exact ⟨b1.trans a1, b2.trans a2, b3.trans a3, b4.trans a4⟩

theorem rowFinite_congr (sqrtf : ℚ → ℚ) (g g1 : ReconGrid) (ray : CTRay)
    (h : sameDims g g1) (hf : rowFinite sqrtf g ray) : rowFinite sqrtf g1 ray := by
  obtain ⟨a1, a2, a3, _⟩ := h
  unfold rowFinite at hf ⊢
  rw [a1, a2, a3]
  exact hf

/-- Below `n` the built row depends on the dimensions of the grid and on the ray
only, not on the buffers. -/
theorem builtRow_congr (sqrtf : ℚ → ℚ) (g g1 : ReconGrid) (ray : CTRay)
    (h : sameDims g g1) (k : Nat) (hk : k < g.n.toNat) :
    builtRow sqrtf g1 ray k = builtRow sqrtf g ray k := by
  obtain ⟨a1, a2, a3, a4⟩ := h
  unfold builtRow
  rw [a1, a2, a3, a4]
  simp only [hk, if_true]

theorem dot_congr (n : Nat) (a b a1 b1 : Nat → ℚ)
    (ha : ∀ k, k < n → a1 k = a k) (hb : ∀ k, k < n → b1 k = b k) :
    dot n a1 b1 = dot n a b := by
  unfold dot
  refine Finset.sum_congr rfl (fun i hi => ?_)
  rw [ha i (Finset.mem_range.mp hi), hb i (Finset.mem_range.mp hi)]

theorem dot_comm (n : Nat) (a b : Nat → ℚ) : dot n a b = dot n b a := by
  unfold dot
  exact Finset.sum_congr rfl (fun i _ => mul_comm _ _)

theorem projection_loop_eq (n : Nat) (gt row : Nat → ℚ) :
    forLoop n (fun i b => b + gt i * row i) 0 = dot n gt row := by
  unfold dot
  induction n with
  | zero => simp [forLoop]
  | succ k ih => simp only [forLoop, Finset.sum_range_succ]; rw [ih]

theorem compute_projection_eq_some (sqrtf : ℚ → ℚ) (g g1 : ReconGrid) (ray : CTRay) (b : ℚ)
    (h : recon_compute_projection sqrtf g ray = some (b, g1)) :
    rowFinite sqrtf g ray ∧ g1 = { g with row_buffer := builtRow sqrtf g ray }
      ∧ b = dot g.n.toNat g.ground_truth (builtRow sqrtf g ray) := by
  unfold recon_compute_projection at h
  simp only [Option.map_eq_some', Prod.mk.injEq] at h
  obtain ⟨g2, h2, hb, hg⟩ := h
  obtain ⟨hf, e⟩ := build_row_eq_some sqrtf g g2 ray h2
  subst hg
  subst e
  refine ⟨hf, rfl, ?_⟩
  rw [← hb]
  exact projection_loop_eq _ _ _

theorem compute_projection_some (sqrtf : ℚ → ℚ) (g : ReconGrid) (ray : CTRay)
    (hf : rowFinite sqrtf g ray) :
    recon_compute_projection sqrtf g ray
      = some (dot g.n.toNat g.ground_truth (builtRow sqrtf g ray),
              { g with row_buffer := builtRow sqrtf g ray }) := by
  unfold recon_compute_projection
  rw [build_row_some sqrtf g ray hf]
  simp only [Option.map_some']
  rw [projection_loop_eq]

theorem process_ray_some (sqrtf : ℚ → ℚ) (g : ReconGrid) (ray : CTRay) (p : ℚ)
    (hf : rowFinite sqrtf g ray) :
    recon_process_ray sqrtf g ray p
      = some (recon_kaczmarz_step { g with row_buffer := builtRow sqrtf g ray } p) := by
  unfold recon_process_ray
  rw [build_row_some sqrtf g ray hf]
  rfl

theorem kaczmarz_frame (g : ReconGrid) (p : ℚ) :
    (recon_kaczmarz_step g p).ground_truth = g.ground_truth
      ∧ sameDims g (recon_kaczmarz_step g p) := by
  unfold recon_kaczmarz_step
  simp only
  split
  · exact ⟨rfl, sameDims_refl g⟩
  · exact ⟨rfl, rfl, rfl, rfl, rfl⟩

theorem reconError_eq_sqDist (g : ReconGrid) :
    reconError g = sqDist g.n.toNat g.values g.ground_truth := rfl

theorem sqDist_eq_zero (n : Nat) (a b : Nat → ℚ) (h : sqDist n a b = 0) (k : Nat)
    (hk : k < n) : a k = b k := by
  unfold sqDist at h
  have h1 := (Finset.sum_eq_zero_iff_of_nonneg (fun i _ => sq_nonneg (a i - b i))).mp h k
    (Finset.mem_range.mpr hk)
  have h2 : a k - b k = 0 := by
    rcases sq_eq_zero_iff.mp h1 with h3
    exact h3
  linarith

/-- One Kaczmarz step on a row `a` whose projection `p` is consistent with the ground
truth (`p = ground_truth . a`): the error drops by the squared size of the change. -/
theorem kaczmarz_error_drop (g : ReconGrid) (p : ℚ)
    (hp : p = dot g.n.toNat g.ground_truth g.row_buffer) :
    reconError (recon_kaczmarz_step g p)
        + sqDist g.n.toNat g.values (recon_kaczmarz_step g p).values
      = reconError g := by
  by_cases h : dot g.n.toNat g.row_buffer g.row_buffer < ROW_NORM_EPS
  · rw [kaczmarz_skip g p h]
    have : sqDist g.n.toNat g.values g.values = 0 := by
      unfold sqDist; simp
    rw [this, add_zero]
  · have hge : ROW_NORM_EPS ≤ dot g.n.toNat g.row_buffer g.row_buffer := not_lt.mp h
    have hz : dot g.n.toNat g.row_buffer g.ground_truth = p := by
      rw [hp]; exact dot_comm _ _ _
    have hpy := kaczmarz_pythagoras g p g.ground_truth hge hz
    obtain ⟨hgt, _, _, _, hn⟩ := kaczmarz_frame g p
    rw [reconError_eq_sqDist, reconError_eq_sqDist, hgt, hn, hpy]
    ring

/-- One `recon_process_ray` on a grid `gi` that has the dimensions and ground truth
of `g0`, for a ray whose projection `p` was computed on `g0`. -/
theorem process_ray_step (sqrtf : ℚ → ℚ) (g0 gi : ReconGrid) (ray : CTRay) (p : ℚ)
    (hd : sameDims g0 gi) (hgt : gi.ground_truth = g0.ground_truth)
    (hf : rowFinite sqrtf g0 ray)
    (hp : p = dot g0.n.toNat g0.ground_truth (builtRow sqrtf g0 ray)) :
    ∃ gn, recon_process_ray sqrtf gi ray p = some gn
      ∧ sameDims g0 gn
      ∧ gn.ground_truth = g0.ground_truth
      ∧ reconError gn + sqDist g0.n.toNat gi.values gn.values = reconError gi
      ∧ (dot g0.n.toNat (builtRow sqrtf g0 ray) (builtRow sqrtf g0 ray) < ROW_NORM_EPS →
          gn.values = gi.values)
      ∧ (ROW_NORM_EPS ≤ dot g0.n.toNat (builtRow sqrtf g0 ray) (builtRow sqrtf g0 ray) →
          dot g0.n.toNat (builtRow sqrtf g0 ray) gn.values = p) := by
  have hfi : rowFinite sqrtf gi ray := rowFinite_congr sqrtf g0 gi ray hd hf
  have hn : gi.n = g0.n := hd.2.2.2
  have hrow : ∀ k, k < g0.n.toNat → builtRow sqrtf gi ray k = builtRow sqrtf g0 ray k :=
    fun k hk => builtRow_congr sqrtf g0 gi ray hd k hk
  have hnorm : dot g0.n.toNat (builtRow sqrtf gi ray) (builtRow sqrtf gi ray)
      = dot g0.n.toNat (builtRow sqrtf g0 ray) (builtRow sqrtf g0 ray) :=
    dot_congr _ _ _ _ _ hrow hrow
  have hp' : p = dot g0.n.toNat gi.ground_truth (builtRow sqrtf gi ray) := by
    rw [hp, hgt]
    exact (dot_congr _ _ _ _ _ (fun _ _ => rfl) hrow).symm
  -- the grid on which the Kaczmarz step runs
  obtain ⟨gr, hgr⟩ : ∃ gr : ReconGrid, gr = { gi with row_buffer := builtRow sqrtf gi ray } :=
    ⟨_, rfl⟩
  have hgrn : gr.n = g0.n := by rw [hgr]; exact hn
  have hgrv : gr.values = gi.values := by rw [hgr]
  have hgrg : gr.ground_truth = gi.ground_truth := by rw [hgr]
  have hgrr : gr.row_buffer = builtRow sqrtf gi ray := by rw [hgr]
  have hgrd : sameDims gi gr := by rw [hgr]; exact ⟨rfl, rfl, rfl, rfl⟩
  have hgre : reconError gr = reconError gi := by rw [hgr]; rfl
  refine ⟨recon_kaczmarz_step gr p, ?_, ?_, ?_, ?_, ?_, ?_⟩
  · rw [process_ray_some sqrtf gi ray p hfi, hgr]
  · exact sameDims_trans _ _ _ hd (sameDims_trans _ _ _ hgrd (kaczmarz_frame gr p).2)
  · rw [(kaczmarz_frame gr p).1, hgrg, hgt]
  · have hdrop := kaczmarz_error_drop gr p (by rw [hgrn, hgrg, hgrr]; exact hp')
    rw [hgrn, hgrv, hgre] at hdrop
    exact hdrop
  · intro hlt
    have : dot gr.n.toNat gr.row_buffer gr.row_buffer < ROW_NORM_EPS := by
      rw [hgrn, hgrr, hnorm]; exact hlt
    rw [kaczmarz_skip gr p this, hgrv]
  · intro hge
    have hge' : ROW_NORM_EPS ≤ dot gr.n.toNat gr.row_buffer gr.row_buffer := by
      rw [hgrn, hgrr, hnorm]; exact hge
    have := kaczmarz_dot_eq gr p hge'
    rw [hgrn, hgrr] at this
    exact ((dot_congr _ _ _ _ _ hrow (fun _ _ => rfl)).symm).trans this

theorem sameDims_symm (g g1 : ReconGrid) (h : sameDims g g1) : sameDims g1 g := by
  obtain ⟨a1, a2, a3, a4⟩ := h
  exact ⟨a1.symm, a2.symm, a3.symm, a4.symm⟩

/-! ## Lemmas on `recon_precompute_projections` -/

/-- What the first `i` iterations of `recon_precompute_projections` leave behind. -/
theorem precompute_loop_spec (sqrtf : ℚ → ℚ) (g : ReconGrid) (rs : RaySet) (i : Nat) :
    ∀ (g1 : ReconGrid) (rs1 : RaySet),
      forLoopM i
          (fun i st =>
            (recon_compute_projection sqrtf st.1 (st.2.rays i)).map fun bg =>
              (bg.2, { st.2 with projections := Function.update st.2.projections i bg.1 }))
          (g, rs) = some (g1, rs1) →
      g1.values = g.values ∧ g1.ground_truth = g.ground_truth ∧ sameDims g g1
        ∧ rs1.rays = rs.rays ∧ rs1.count = rs.count ∧ rs1.type = rs.type
        ∧ rs1.metadata = rs.metadata
        ∧ ∀ k, k < i → rowFinite sqrtf g (rs.rays k)
            ∧ rs1.projections k
                = dot g.n.toNat g.ground_truth (builtRow sqrtf g (rs.rays k)) := by
  induction i with
  | zero =>
    intro g1 rs1 h
    simp only [forLoopM, Option.some.injEq, Prod.mk.injEq] at h
    obtain ⟨h1, h2⟩ := h
    subst h1; subst h2
    exact ⟨rfl, rfl, sameDims_refl _, rfl, rfl, rfl, rfl, fun k hk => absurd hk (by omega)⟩
  | succ i ih =>
    intro g1 rs1 h
    simp only [forLoopM, Option.bind_eq_some] at h
    obtain ⟨⟨gi, rsi⟩, hi, hbody⟩ := h
    obtain ⟨hv, hgt, hd, hr, hc, ht, hm, hk⟩ := ih gi rsi hi
    simp only [Option.map_eq_some', Prod.mk.injEq] at hbody
    obtain ⟨⟨b, g2⟩, hcp, hg, hrs⟩ := hbody
    obtain ⟨hf, hg2, hb⟩ := compute_projection_eq_some sqrtf gi g2 (rsi.rays i) b hcp
    simp only at hg hrs
    subst hg
    subst hg2
    have hn : gi.n = g.n := hd.2.2.2
    have hrow : ∀ k, k < g.n.toNat →
        builtRow sqrtf gi (rs.rays i) k = builtRow sqrtf g (rs.rays i) k :=
      fun k hk => builtRow_congr sqrtf g gi (rs.rays i) hd k hk
    refine ⟨hv, hgt, hd, ?_, ?_, ?_, ?_, ?_⟩
    · rw [← hrs]; exact hr
    · rw [← hrs]; exact hc
    · rw [← hrs]; exact ht
    · rw [← hrs]; exact hm
    · intro k hk1
      rw [← hrs]
      by_cases hki : k = i
      · subst hki
        rw [hr] at hf hb
        refine ⟨rowFinite_congr sqrtf gi g _ (sameDims_symm _ _ hd) hf, ?_⟩
        simp only [Function.update_same]
        rw [hb, hn, hgt]
        exact dot_congr _ _ _ _ _ (fun _ _ => rfl) hrow
      · have hlt : k < i := by omega
        refine ⟨(hk k hlt).1, ?_⟩
        simp only [Function.update_noteq hki]
        exact (hk k hlt).2

/-- When every ray below `count` has finite weights, `recon_precompute_projections`
succeeds. -/
theorem precompute_total (sqrtf : ℚ → ℚ) (g : ReconGrid) (rs : RaySet)
    (hf : ∀ k, k < rs.count → rowFinite sqrtf g (rs.rays k)) :
    ∃ g1 rs1, recon_precompute_projections sqrtf g rs = some (g1, rs1) := by
  unfold recon_precompute_projections
  have key : ∀ i, i ≤ rs.count → ∃ g1 rs1,
      forLoopM i
          (fun i st =>
            (recon_compute_projection sqrtf st.1 (st.2.rays i)).map fun bg =>
              (bg.2, { st.2 with projections := Function.update st.2.projections i bg.1 }))
          (g, rs) = some (g1, rs1) := by
    intro i
    induction i with
    | zero => intro _; exact ⟨g, rs, rfl⟩
    | succ i ih =>
      intro hi
      obtain ⟨gi, rsi, hloop⟩ := ih (by omega)
      obtain ⟨_, _, hd, hr, _, _, _, _⟩ := precompute_loop_spec sqrtf g rs i gi rsi hloop
      have hfi : rowFinite sqrtf gi (rsi.rays i) := by
        rw [hr]
        exact rowFinite_congr sqrtf g gi _ hd (hf i (by omega))
      simp only [forLoopM, hloop, Option.some_bind]
      rw [compute_projection_some sqrtf gi (rsi.rays i) hfi]
      exact ⟨_, _, rfl⟩
  exact key rs.count (le_refl _)

/-! ## Lemmas on the sweep -/

/-- A full sweep over a fan set processes the rays `0, ..., num_sources * R - 1` in
index order, each with its stored projection. -/
theorem full_sweep_flat (sqrtf : ℚ → ℚ) (g : ReconGrid) (rs : RaySet)
    (ht : rs.type = RaySetType.RAY_MODE_FAN) :
    full_sweep sqrtf g rs
      = forLoopM (rs.metadata.fan.num_sources * rs.metadata.fan.num_rays_per_source)
          (fun i g1 => recon_process_ray sqrtf g1 (rs.rays i) (rs.projections i)) g := by
  unfold full_sweep
  have hbody : ∀ s, s < rs.metadata.fan.num_sources → ∀ g1,
      recon_iterate_fan sqrtf g1 rs s
        = forLoopM rs.metadata.fan.num_rays_per_source
            (fun j g2 => recon_process_ray sqrtf g2
              (rs.rays (s * rs.metadata.fan.num_rays_per_source + j))
              (rs.projections (s * rs.metadata.fan.num_rays_per_source + j))) g1 := by
    intro s _ g1
    unfold recon_iterate_fan forRangeM
    simp only [ht, ne_eq, not_true_eq_false, if_false, Nat.add_sub_cancel_left]
  rw [forLoopM_congr _ _ _ hbody]
  rw [forLoopM_nested rs.metadata.fan.num_sources rs.metadata.fan.num_rays_per_source
    (fun s j g2 => recon_process_ray sqrtf g2
      (rs.rays (s * rs.metadata.fan.num_rays_per_source + j))
      (rs.projections (s * rs.metadata.fan.num_rays_per_source + j)))]
  apply forLoopM_congr
  intro c _ g1
  simp only [Nat.div_add_mod']

theorem dot_zero_right (n : Nat) (a x : Nat → ℚ) (hx : ∀ j, j < n → x j = 0) :
    dot n a x = 0 := by
  unfold dot
  refine Finset.sum_eq_zero (fun i hi => ?_)
  rw [hx i (Finset.mem_range.mp hi), mul_zero]

/-- Invariant of the sweep: processing the first `i` rays, each with the projection
computed from the ground truth, succeeds, never increases the error, and has
strictly decreased it as soon as one of those rays has a non-zero projection and a
squared row norm of at least `1e-12`. -/
theorem sweep_loop_spec (sqrtf : ℚ → ℚ) (g0 g1 : ReconGrid) (rays : Nat → CTRay)
    (proj : Nat → ℚ) (N : Nat)
    (hd : sameDims g0 g1) (hgt : g1.ground_truth = g0.ground_truth)
    (hz : ∀ j, j < g0.n.toNat → g1.values j = 0)
    (hrays : ∀ k, k < N → rowFinite sqrtf g0 (rays k)
      ∧ proj k = dot g0.n.toNat g0.ground_truth (builtRow sqrtf g0 (rays k)))
    (i : Nat) (hi : i ≤ N) :
    ∃ gi, forLoopM i (fun k g => recon_process_ray sqrtf g (rays k) (proj k)) g1 = some gi
      ∧ sameDims g0 gi
      ∧ gi.ground_truth = g0.ground_truth
      ∧ reconError gi ≤ reconError g1
      ∧ ((∀ j, j < g0.n.toNat → gi.values j = 0) ∨ reconError gi < reconError g1)
      ∧ ∀ k, k < i →
          proj k ≠ 0 →
          ROW_NORM_EPS ≤ dot g0.n.toNat (builtRow sqrtf g0 (rays k)) (builtRow sqrtf g0 (rays k)) →
          reconError gi < reconError g1 := by
  induction i with
  | zero =>
    exact ⟨g1, rfl, hd, hgt, le_refl _, Or.inl hz, fun k hk => absurd hk (by omega)⟩
  | succ i ih =>
    obtain ⟨gi, hloop, hdi, hgti, hle, hzs, hgood⟩ := ih (by omega)
    obtain ⟨hf, hp⟩ := hrays i (by omega)
    obtain ⟨gn, hproc, hdn, hgtn, hdrop, hskip, hsolve⟩ :=
      process_ray_step sqrtf g0 gi (rays i) (proj i) hdi hgti hf hp
    have hnn := sqDist_nonneg g0.n.toNat gi.values gn.values
    have hle' : reconError gn ≤ reconError gi := by linarith
    refine ⟨gn, ?_, hdn, hgtn, le_trans hle' hle, ?_, ?_⟩
    · simp only [forLoopM, hloop, Option.some_bind]
      exact hproc
    · rcases hzs with hzero | hstrict
      · by_cases hchg : sqDist g0.n.toNat gi.values gn.values = 0
        · left
          intro j hj
          rw [← sqDist_eq_zero _ _ _ hchg j hj]
          exact hzero j hj
        · right
          have : 0 < sqDist g0.n.toNat gi.values gn.values :=
            lt_of_le_of_ne hnn (Ne.symm hchg)
          linarith
      · right
        linarith
    · intro k hk hpk hnk
      by_cases hki : k = i
      · subst hki
        rcases hzs with hzero | hstrict
        · have hne : sqDist g0.n.toNat gi.values gn.values ≠ 0 := by
            intro hchg
            have hsame : ∀ j, j < g0.n.toNat → gn.values j = gi.values j :=
              fun j hj => (sqDist_eq_zero _ _ _ hchg j hj).symm
            have h1 := hsolve hnk
            have h2 : dot g0.n.toNat (builtRow sqrtf g0 (rays k)) gn.values = 0 :=
              dot_zero_right _ _ _ (fun j hj => by rw [hsame j hj]; exact hzero j hj)
            rw [h2] at h1
            exact hpk h1.symm
          have : 0 < sqDist g0.n.toNat gi.values gn.values := lt_of_le_of_ne hnn (Ne.symm hne)
          linarith
        · linarith
      · have := hgood k (by omega) hpk hnk
        linarith

/-! ## Claim on the end-to-end sweep -/

/-- C4: for every grid whose values are all zero and every fan ray set (fan mode,
`count = num_sources * num_rays_per_source`) whose projections were filled by
`recon_precompute_projections` on that grid, if at least one ray has a non-zero
precomputed projection and a squared row norm of at least `1e-12`, then one full
sweep (`recon_iterate_fan` once for each source index `0, ..., num_sources - 1`)
succeeds and leaves the sum over the cells of `(values - ground_truth)^2` strictly
lower than before the sweep. -/
theorem full_sweep_reduces_error (sqrtf : ℚ → ℚ) (g g1 : ReconGrid) (rs rs1 : RaySet)
    (hz : ∀ j, j < g.n.toNat → g.values j = 0)
    (ht : rs.type = RaySetType.RAY_MODE_FAN)
    (hc : rs.count = rs.metadata.fan.num_sources * rs.metadata.fan.num_rays_per_source)
    (hpre : recon_precompute_projections sqrtf g rs = some (g1, rs1))
    (hgood : ∃ k, k < rs.count ∧ rs1.projections k ≠ 0
      ∧ ∃ gk, recon_build_row sqrtf g (rs.rays k) = some gk
        ∧ ROW_NORM_EPS ≤ ∑ i in Finset.range g.n.toNat, gk.row_buffer i * gk.row_buffer i) :
    ∃ g2, full_sweep sqrtf g1 rs1 = some g2
      ∧ (∑ i in Finset.range g2.n.toNat, (g2.values i - g2.ground_truth i) ^ 2)
          < ∑ i in Finset.range g1.n.toNat, (g1.values i - g1.ground_truth i) ^ 2 := by
  obtain ⟨hv, hgt, hd, hr, hcnt, htype, hmeta, hk⟩ :=
    precompute_loop_spec sqrtf g rs rs.count g1 rs1 hpre
  have hz1 : ∀ j, j < g.n.toNat → g1.values j = 0 := fun j hj => by rw [hv]; exact hz j hj
  have hrays : ∀ k, k < rs.count → rowFinite sqrtf g (rs1.rays k)
      ∧ rs1.projections k = dot g.n.toNat g.ground_truth (builtRow sqrtf g (rs1.rays k)) := by
    intro k hk1
    rw [hr]
    exact hk k hk1
  obtain ⟨g2, hloop, _, _, _, _, hstrict⟩ :=
    sweep_loop_spec sqrtf g g1 rs1.rays rs1.projections rs.count hd hgt hz1 hrays rs.count
      (le_refl _)
  refine ⟨g2, ?_, ?_⟩
  · rw [full_sweep_flat sqrtf g1 rs1 (htype.trans ht), hmeta, ← hc]
    exact hloop
  · obtain ⟨k, hk1, hpk, gk, hgk, hnorm⟩ := hgood
    obtain ⟨_, hgke⟩ := build_row_eq_some sqrtf g gk (rs.rays k) hgk
    have hnk : ROW_NORM_EPS
        ≤ dot g.n.toNat (builtRow sqrtf g (rs1.rays k)) (builtRow sqrtf g (rs1.rays k)) := by
      rw [hr]
      rw [hgke] at hnorm
      exact hnorm
    exact hstrict k hk1 hpk hnk

theorem oneCell_rowFinite : rowFinite sqrtOnSquares oneCellGrid horizontalRay :=
  rowFinite_of_direction sqrtOnSquares oneCellGrid horizontalRay
    (by norm_num [oneCellGrid]) (by norm_num [horizontalRay])

theorem oneCell_builtRow : builtRow sqrtOnSquares oneCellGrid horizontalRay 0 = 1 := by
  have hw := cellWeight_horizontal sqrtOnSquares sqrtOnSquares_one 1 1 horizontalRay 0 0
    (by norm_num) (by norm_num) rfl rfl (by norm_num [horizontalRay])
    (by norm_num [horizontalRay]) (by norm_num [horizontalRay])
  have h1 : oneCellGrid.ny.toNat * oneCellGrid.nx.toNat = 1 := rfl
  have h2 : oneCellGrid.nx.toNat = 1 := rfl
  have h3 : oneCellGrid.cell_size = 1 := rfl
  unfold builtRow
  rw [h1, h2, h3]
  simp only [Nat.lt_one_iff, if_true]
  simp only [Nat.zero_mul, Nat.zero_add] at hw
  rw [hw]

/-- Instance of C4: one cell of ground truth 1, one source, one horizontal ray through
the cell.  Precomputation and the sweep both succeed and the error drops. -/
theorem full_sweep_reduces_error_witness :
    ∃ g1 rs1 g2, recon_precompute_projections sqrtOnSquares oneCellGrid oneRaySet = some (g1, rs1)
      ∧ full_sweep sqrtOnSquares g1 rs1 = some g2
      ∧ (∑ i in Finset.range g2.n.toNat, (g2.values i - g2.ground_truth i) ^ 2)
          < ∑ i in Finset.range g1.n.toNat, (g1.values i - g1.ground_truth i) ^ 2 := by
  obtain ⟨g1, rs1, hpre⟩ := precompute_total sqrtOnSquares oneCellGrid oneRaySet
    (fun _ _ => oneCell_rowFinite)
  have hn : oneCellGrid.n.toNat = 1 := rfl
  have hproj : rs1.projections 0 = 1 := by
    have h := (precompute_loop_spec sqrtOnSquares oneCellGrid oneRaySet oneRaySet.count g1 rs1
      hpre).2.2.2.2.2.2.2 0 (by norm_num [oneRaySet])
    rw [h.2, hn]
    have : oneRaySet.rays 0 = horizontalRay := rfl
    rw [this]
    simp only [dot, Finset.sum_range_one, oneCell_builtRow]
    norm_num [oneCellGrid]
  obtain ⟨g2, h2, h3⟩ := full_sweep_reduces_error sqrtOnSquares oneCellGrid g1 oneRaySet rs1
    (fun _ _ => rfl) rfl rfl hpre
    ⟨0, by norm_num [oneRaySet], by rw [hproj]; norm_num, _,
      build_row_some sqrtOnSquares oneCellGrid horizontalRay oneCell_rowFinite, by
        rw [hn]
        simp only [Finset.sum_range_one, oneCell_builtRow]
        norm_num [ROW_NORM_EPS]⟩
  exact ⟨g1, rs1, g2, hpre, h2, h3⟩

/-! ## Claims on the driver `recon_iterate_fan` -/

theorem forLoopM_eq_foldlM {σ : Type} (lo n : Nat) (body : Nat → σ → Option σ) (s : σ) :
    forLoopM n (fun k => body (lo + k)) s
      = (List.range' lo n).foldlM (fun s1 i => body i s1) s := by
  induction n with
  | zero => rfl
  | succ k ih =>
    rw [List.range'_concat, List.foldlM_append, ← ih]
    simp only [forLoopM, Nat.one_mul]
    cases forLoopM k (fun k => body (lo + k)) s with
    | none => rfl
    | some s1 => simp [List.foldlM]

/-- C14: for every grid, every fan-mode ray set with `count = num_sources * R`
(`R` the stored `num_rays_per_source`) and every source index `s < num_sources`,
`recon_iterate_fan g rs s` is `recon_process_ray` applied to the rays
`s*R, s*R+1, ..., s*R+R-1` in that order, each with its own stored projection; every
index read is below `count` and belongs to source `s`. -/
theorem recon_iterate_fan_bundle (sqrtf : ℚ → ℚ) (g : ReconGrid) (rs : RaySet) (s : Nat)
    (ht : rs.type = RaySetType.RAY_MODE_FAN)
    (hc : rs.count = rs.metadata.fan.num_sources * rs.metadata.fan.num_rays_per_source)
    (hs : s < rs.metadata.fan.num_sources) :
    recon_iterate_fan sqrtf g rs s
        = process_rays_in_order sqrtf g rs
            (List.range' (s * rs.metadata.fan.num_rays_per_source)
              rs.metadata.fan.num_rays_per_source)
      ∧ ∀ i, i ∈ List.range' (s * rs.metadata.fan.num_rays_per_source)
            rs.metadata.fan.num_rays_per_source →
          i < rs.count ∧ i / rs.metadata.fan.num_rays_per_source = s := by
  constructor
  · unfold recon_iterate_fan forRangeM process_rays_in_order
    simp only [ht, ne_eq, not_true_eq_false, if_false, Nat.add_sub_cancel_left]
    exact forLoopM_eq_foldlM _ _
      (fun i g1 => recon_process_ray sqrtf g1 (rs.rays i) (rs.projections i)) g
  · intro i hi
    rw [List.mem_range'_1] at hi
    obtain ⟨h1, h2⟩ := hi
    have hR : 0 < rs.metadata.fan.num_rays_per_source := by omega
    constructor
    · rw [hc]
      calc i < s * rs.metadata.fan.num_rays_per_source + rs.metadata.fan.num_rays_per_source := h2
        _ = (s + 1) * rs.metadata.fan.num_rays_per_source := by ring
        _ ≤ rs.metadata.fan.num_sources * rs.metadata.fan.num_rays_per_source :=
            Nat.mul_le_mul_right _ hs
    · apply Nat.div_eq_of_lt_le
      · exact h1
      · calc i < s * rs.metadata.fan.num_rays_per_source + rs.metadata.fan.num_rays_per_source := h2
          _ = (s + 1) * rs.metadata.fan.num_rays_per_source := by ring

/-- Instance of C14: source 1 of `demoRaySet` (two sources, one ray each). -/
theorem recon_iterate_fan_bundle_witness :
    recon_iterate_fan sqrtOnSquares oneCellGrid demoRaySet 1
        = process_rays_in_order sqrtOnSquares oneCellGrid demoRaySet
            (List.range' (1 * demoRaySet.metadata.fan.num_rays_per_source)
              demoRaySet.metadata.fan.num_rays_per_source)
      ∧ ∀ i, i ∈ List.range' (1 * demoRaySet.metadata.fan.num_rays_per_source)
            demoRaySet.metadata.fan.num_rays_per_source →
          i < demoRaySet.count ∧ i / demoRaySet.metadata.fan.num_rays_per_source = 1 :=
  recon_iterate_fan_bundle sqrtOnSquares oneCellGrid demoRaySet 1 rfl rfl
    (by norm_num [demoRaySet])

/-- C15: for every grid, every iteration index and every ray set whose type is not
`RAY_MODE_FAN`, `recon_iterate_fan` processes no ray: it returns the grid it was given,
so `values`, `ground_truth` and `row_buffer` are unchanged. -/
theorem recon_iterate_fan_unsupported (sqrtf : ℚ → ℚ) (g : ReconGrid) (rs : RaySet)
    (iteration : Nat) (ht : rs.type ≠ RaySetType.RAY_MODE_FAN) :
    recon_iterate_fan sqrtf g rs iteration = some g := by
  unfold recon_iterate_fan
  rw [if_pos ht]

/-- Instance of C15 on a set in parallel mode. -/
theorem recon_iterate_fan_unsupported_witness :
    recon_iterate_fan sqrtOnSquares demoGrid demoParallelSet 3 = some demoGrid :=
  recon_iterate_fan_unsupported sqrtOnSquares demoGrid demoParallelSet 3
    (by simp [demoParallelSet])

/-! ## Claim on the scratch row -/

/-- The outcome of `cellWeight` when every weight of the row is finite. -/
theorem cellWeight_of_finite (sqrtf : ℚ → ℚ) (cell_size : Int) (nx : Nat) (ray : CTRay) (c : Nat)
    (h : cellWeight sqrtf cell_size nx ray c ≠ none) :
    ((liang_barsky_ray sqrtf (cell_rect cell_size (c % nx) (c / nx))
          ray.ox ray.oy ray.dx ray.dy).intersects = true →
        ∃ len : ℚ,
          (liang_barsky_ray sqrtf (cell_rect cell_size (c % nx) (c / nx))
            ray.ox ray.oy ray.dx ray.dy).length = XFloat.fin len
          ∧ cellWeight sqrtf cell_size nx ray c = some (some (len / (cell_size : ℚ))))
      ∧ ((liang_barsky_ray sqrtf (cell_rect cell_size (c % nx) (c / nx))
          ray.ox ray.oy ray.dx ray.dy).intersects = false →
        cellWeight sqrtf cell_size nx ray c = some none) := by
  unfold cellWeight at h ⊢
  simp only at h ⊢
  constructor
  · intro hi
    rw [if_pos hi] at h ⊢
    cases hl : (liang_barsky_ray sqrtf (cell_rect cell_size (c % nx) (c / nx))
        ray.ox ray.oy ray.dx ray.dy).length with
    | fin len =>
      rw [hl] at h
      refine ⟨len, rfl, ?_⟩
      by_cases hcs : (cell_size : ℚ) = 0
      · simp [XFloat.toRat?, fdiv, hcs] at h
      · simp [XFloat.toRat?, fdiv, hcs]
    | posInf => rw [hl] at h; simp [XFloat.toRat?] at h
    | negInf => rw [hl] at h; simp [XFloat.toRat?] at h
    | nan => rw [hl] at h; simp [XFloat.toRat?] at h
  · intro hi
    have : ¬ (liang_barsky_ray sqrtf (cell_rect cell_size (c % nx) (c / nx))
        ray.ox ray.oy ray.dx ray.dy).intersects = true := by rw [hi]; simp
    rw [if_neg this]

theorem cell_index (nx ny : Int) (ix iy : Nat) (hix : (ix : Int) < nx) (hiy : (iy : Int) < ny) :
    ((iy : Int) * nx + (ix : Int)).toNat = iy * nx.toNat + ix
      ∧ iy * nx.toNat + ix < ny.toNat * nx.toNat
      ∧ (iy * nx.toNat + ix) % nx.toNat = ix
      ∧ (iy * nx.toNat + ix) / nx.toNat = iy := by
  have hnx : nx = ((nx.toNat : Nat) : Int) := (Int.toNat_of_nonneg (by omega)).symm
  have hix' : ix < nx.toNat := by omega
  have hiy' : iy < ny.toNat := by omega
  refine ⟨?_, ?_, ?_, ?_⟩
  · have : ((iy : Int) * nx + (ix : Int)) = ((iy * nx.toNat + ix : Nat) : Int) := by
      push_cast
      rw [← hnx]
    rw [this]
    exact Int.toNat_natCast _
  · calc iy * nx.toNat + ix < iy * nx.toNat + nx.toNat := by omega
      _ = (iy + 1) * nx.toNat := by ring
      _ ≤ ny.toNat * nx.toNat := Nat.mul_le_mul_right _ hiy'
  · rw [Nat.add_comm, Nat.add_mul_mod_self_right, Nat.mod_eq_of_lt hix']
  · rw [Nat.add_comm, Nat.add_mul_div_right _ _ (by omega), Nat.div_eq_of_lt hix', Nat.zero_add]

/-- The entry that `builtRow` holds for a cell of a grid with `n = nx * ny`. -/
theorem builtRow_cell (sqrtf : ℚ → ℚ) (g : ReconGrid) (ray : CTRay) (ix iy : Nat)
    (hn : g.n = g.nx * g.ny) (hf : rowFinite sqrtf g ray)
    (hix : (ix : Int) < g.nx) (hiy : (iy : Int) < g.ny) :
    ((liang_barsky_ray sqrtf (cell_rect g.cell_size ix iy)
          ray.ox ray.oy ray.dx ray.dy).intersects = true →
        ∃ len : ℚ,
          (liang_barsky_ray sqrtf (cell_rect g.cell_size ix iy)
            ray.ox ray.oy ray.dx ray.dy).length = XFloat.fin len
          ∧ builtRow sqrtf g ray ((iy : Int) * g.nx + (ix : Int)).toNat
              = len / (g.cell_size : ℚ))
      ∧ ((liang_barsky_ray sqrtf (cell_rect g.cell_size ix iy)
          ray.ox ray.oy ray.dx ray.dy).intersects = false →
        builtRow sqrtf g ray ((iy : Int) * g.nx + (ix : Int)).toNat = 0) := by
  obtain ⟨hidx, hlt, hmod, hdiv⟩ := cell_index g.nx g.ny ix iy hix hiy
  have hk : iy * g.nx.toNat + ix < g.n.toNat := by
    have h1 : g.n = ((g.ny.toNat * g.nx.toNat : Nat) : Int) := by
      rw [hn]
      push_cast
      rw [Int.toNat_of_nonneg (by omega), Int.toNat_of_nonneg (by omega)]
      ring
    rw [h1, Int.toNat_natCast]
    exact hlt
  have hw := cellWeight_of_finite sqrtf g.cell_size g.nx.toNat ray (iy * g.nx.toNat + ix)
    (hf _ hlt)
  rw [hmod, hdiv] at hw
  rw [hidx]
  unfold builtRow
  simp only [hlt, hk, if_true]
  constructor
  · intro hi
    obtain ⟨len, hlen, hcw⟩ := hw.1 hi
    exact ⟨len, hlen, by rw [hcw]⟩
  · intro hi
    rw [hw.2 hi]

/-- C16: for every ray and every two grid states with the same `nx`, `ny` and
`cell_size` (and `n = nx * ny`) but arbitrary row buffers, `recon_build_row` has a
result on both or on neither; the two results hold the same row, in which the entry of
cell `(ix, iy)` is `liang_barsky_ray(cell rectangle, ray).length / s` when that call
intersects and 0 otherwise; `values` and `ground_truth` are unchanged.  There is a
result whenever the cell size and the direction of the ray are not zero. -/
theorem recon_build_row_overwrites (sqrtf : ℚ → ℚ) (g g' : ReconGrid) (ray : CTRay)
    (hnx : g'.nx = g.nx) (hny : g'.ny = g.ny) (hcs : g'.cell_size = g.cell_size)
    (hn : g.n = g.nx * g.ny) (hn' : g'.n = g'.nx * g'.ny) :
    (recon_build_row sqrtf g ray = none ↔ recon_build_row sqrtf g' ray = none)
      ∧ (g.cell_size ≠ 0 → ¬ (ray.dx = 0 ∧ ray.dy = 0) →
          ∃ g1, recon_build_row sqrtf g ray = some g1)
      ∧ ∀ g1 g1', recon_build_row sqrtf g ray = some g1 →
          recon_build_row sqrtf g' ray = some g1' →
          (∀ i, i < g.n.toNat → g1.row_buffer i = g1'.row_buffer i)
          ∧ (∀ ix iy : Nat, (ix : Int) < g.nx → (iy : Int) < g.ny →
              ((liang_barsky_ray sqrtf (cell_rect g.cell_size ix iy)
                    ray.ox ray.oy ray.dx ray.dy).intersects = true →
                  ∃ len : ℚ,
                    (liang_barsky_ray sqrtf (cell_rect g.cell_size ix iy)
                      ray.ox ray.oy ray.dx ray.dy).length = XFloat.fin len
                    ∧ g1.row_buffer ((iy : Int) * g.nx + (ix : Int)).toNat
                        = len / (g.cell_size : ℚ))
              ∧ ((liang_barsky_ray sqrtf (cell_rect g.cell_size ix iy)
                    ray.ox ray.oy ray.dx ray.dy).intersects = false →
                  g1.row_buffer ((iy : Int) * g.nx + (ix : Int)).toNat = 0))
          ∧ g1.values = g.values ∧ g1.ground_truth = g.ground_truth := by
  have hd : sameDims g g' := ⟨hnx, hny, hcs, by rw [hn', hn, hnx, hny]⟩
  refine ⟨?_, ?_, ?_⟩
  · constructor
    · intro h
      by_cases hf : rowFinite sqrtf g ray
      · rw [build_row_some sqrtf g ray hf] at h
        exact absurd h (by simp)
      · exact build_row_none sqrtf g' ray
          (fun hf' => hf (rowFinite_congr sqrtf g' g ray (sameDims_symm _ _ hd) hf'))
    · intro h
      by_cases hf : rowFinite sqrtf g' ray
      · rw [build_row_some sqrtf g' ray hf] at h
        exact absurd h (by simp)
      · exact build_row_none sqrtf g ray
          (fun hf' => hf (rowFinite_congr sqrtf g g' ray hd hf'))
  · intro h0 hdir
    exact ⟨_, build_row_some sqrtf g ray (rowFinite_of_direction sqrtf g ray h0 hdir)⟩
  · intro g1 g1' h1 h1'
    obtain ⟨hf, e⟩ := build_row_eq_some sqrtf g g1 ray h1
    obtain ⟨_, e'⟩ := build_row_eq_some sqrtf g' g1' ray h1'
    subst e
    subst e'
    refine ⟨fun i hi => (builtRow_congr sqrtf g g' ray hd i hi).symm, ?_, rfl, rfl⟩
    intro ix iy hix hiy
    exact builtRow_cell sqrtf g ray ix iy hn hf hix hiy

/-- Instance of C16: `oneCellGrid` and the same grid with another scratch row. -/
theorem recon_build_row_overwrites_witness :
    (recon_build_row sqrtOnSquares oneCellGrid horizontalRay = none
        ↔ recon_build_row sqrtOnSquares oneCellGridDirty horizontalRay = none)
      ∧ (oneCellGrid.cell_size ≠ 0 → ¬ (horizontalRay.dx = 0 ∧ horizontalRay.dy = 0) →
          ∃ g1, recon_build_row sqrtOnSquares oneCellGrid horizontalRay = some g1) :=
  ⟨(recon_build_row_overwrites sqrtOnSquares oneCellGrid oneCellGridDirty horizontalRay
      rfl rfl rfl rfl rfl).1,
    (recon_build_row_overwrites sqrtOnSquares oneCellGrid oneCellGridDirty horizontalRay
      rfl rfl rfl rfl rfl).2.1⟩

/-! ## Claims on grid construction -/

/-- The C expression `(a + s - 1) / s` is the least `q` with `a <= q * s`, for
`a >= 0` and `s >= 1`. -/
theorem ceil_div_spec (a s : Int) (ha : 0 ≤ a) (hs : 1 ≤ s) :
    0 ≤ (a + s - 1).tdiv s
      ∧ a ≤ (a + s - 1).tdiv s * s
      ∧ ∀ m : Int, a ≤ m * s → (a + s - 1).tdiv s ≤ m := by
  have hs0 : 0 < s := by omega
  rw [Int.tdiv_eq_ediv (by omega) (by omega)]
  refine ⟨Int.ediv_nonneg (by omega) (by omega), ?_, ?_⟩
  · have h := Int.lt_ediv_add_one_mul_self (a + s - 1) hs0
    have e : ((a + s - 1) / s + 1) * s = (a + s - 1) / s * s + s := by ring
    rw [e] at h
    omega
  · intro m hm
    have h : (a + s - 1) / s < m + 1 := by
      apply Int.ediv_lt_of_lt_mul hs0
      have e : (m + 1) * s = m * s + s := by ring
      rw [e]
      omega
    omega

/-- The grid that `recon_grid_alloc` returns for a non-zero cell size and a
non-negative number of cells. -/
theorem grid_alloc_eq (arena : Arena) (mem : ReconGrid) (w h s : Int) (hs : s ≠ 0)
    (hn : ¬ (w + s - 1).tdiv s * (h + s - 1).tdiv s < 0) :
    ∃ a', recon_grid_alloc arena mem w h s
      = some (a',
          { values := fun i =>
              if i < ((w + s - 1).tdiv s * (h + s - 1).tdiv s).toNat then 0 else mem.values i
            ground_truth := mem.ground_truth
            row_buffer := mem.row_buffer
            nx := (w + s - 1).tdiv s
            ny := (h + s - 1).tdiv s
            cell_size := s
            n := (w + s - 1).tdiv s * (h + s - 1).tdiv s }) := by
  unfold recon_grid_alloc
  simp only [hs, if_false, hn]
  exact ⟨_, rfl⟩

theorem forLoop_congr {σ : Type} (n : Nat) (b1 b2 : Nat → σ → σ)
    (h : ∀ k, k < n → ∀ s, b1 k s = b2 k s) (s : σ) :
    forLoop n b1 s = forLoop n b2 s := by
  induction n with
  | zero => rfl
  | succ k ih =>
    simp only [forLoop]
    rw [ih (fun j hj => h j (Nat.lt_succ_of_lt hj))]
    exact h k (Nat.lt_succ_self k) _

/-- A loop that adds `F i` to a sum and `G i` to a counter. -/
theorem forLoop_pair_add (n : Nat) (F : Nat → ℚ) (G : Nat → Int) (init : ℚ × Int) :
    forLoop n (fun i acc => (acc.1 + F i, acc.2 + G i)) init
      = (init.1 + ∑ i in Finset.range n, F i, init.2 + ∑ i in Finset.range n, G i) := by
  induction n with
  | zero => simp [forLoop]
  | succ k ih =>
    simp only [forLoop, Finset.sum_range_succ]
    rw [ih]
    simp only [add_assoc]

/-- Closed form of the pair `(sum, count)` that the inner loops compute for a cell. -/
theorem truth_cell_sums_eq (g : ReconGrid) (pixels : Nat → Fin 256) (img_w img_h : Int)
    (ix iy : Nat) :
    truth_cell_sums g pixels img_w img_h ix iy
      = (∑ yy in Finset.range g.cell_size.toNat, ∑ xx in Finset.range g.cell_size.toNat,
            (if (ix : Int) * g.cell_size + (xx : Int) < img_w
                ∧ (iy : Int) * g.cell_size + (yy : Int) < img_h then
              (((pixels (((iy : Int) * g.cell_size + (yy : Int)) * img_w
                + ((ix : Int) * g.cell_size + (xx : Int))).toNat).val : Nat) : ℚ)
            else 0),
         ∑ yy in Finset.range g.cell_size.toNat, ∑ xx in Finset.range g.cell_size.toNat,
            (if (ix : Int) * g.cell_size + (xx : Int) < img_w
                ∧ (iy : Int) * g.cell_size + (yy : Int) < img_h then (1 : Int) else 0)) := by
  unfold truth_cell_sums
  have hinner : ∀ yy, yy < g.cell_size.toNat → ∀ acc : ℚ × Int,
      forLoop g.cell_size.toNat
        (fun xx acc1 =>
          let px : Int := (ix : Int) * g.cell_size + (xx : Int)
          let py : Int := (iy : Int) * g.cell_size + (yy : Int)
          if px < img_w ∧ py < img_h then
            (acc1.1 + (((pixels (py * img_w + px).toNat).val : Nat) : ℚ), acc1.2 + 1)
          else acc1)
        acc
      = (acc.1 + ∑ xx in Finset.range g.cell_size.toNat,
            (if (ix : Int) * g.cell_size + (xx : Int) < img_w
                ∧ (iy : Int) * g.cell_size + (yy : Int) < img_h then
              (((pixels (((iy : Int) * g.cell_size + (yy : Int)) * img_w
                + ((ix : Int) * g.cell_size + (xx : Int))).toNat).val : Nat) : ℚ)
            else 0),
         acc.2 + ∑ xx in Finset.range g.cell_size.toNat,
            (if (ix : Int) * g.cell_size + (xx : Int) < img_w
                ∧ (iy : Int) * g.cell_size + (yy : Int) < img_h then (1 : Int) else 0)) := by
    intro yy _ acc
    rw [← forLoop_pair_add]
    apply forLoop_congr
    intro xx _ acc1
    simp only
    split <;> simp
  rw [forLoop_congr _ _ _ hinner, forLoop_pair_add]
  simp

/-- A guarded sum over offsets `xx < s` is the sum over the clipped interval. -/
theorem sum_prefix_Ico {M : Type} [AddCommMonoid M] (a s w : Nat) (f : Nat → M) :
    (∑ xx in Finset.range s, (if a + xx < w then f (a + xx) else 0))
      = ∑ px in Finset.Ico a (min (a + s) w), f px := by
  rw [Finset.sum_Ico_eq_sum_range, Finset.sum_ite, Finset.sum_const_zero, add_zero]
  apply Finset.sum_congr
  · ext x
    simp only [Finset.mem_filter, Finset.mem_range]
    omega
  · intro x _
    rfl

/-- The pair `(sum, count)` of a cell is the sum of the samples of its footprint and
the number of pixels of the footprint. -/
theorem truth_cell_sums_footprint (g : ReconGrid) (pixels : Nat → Fin 256)
    (w h s ix iy : Nat) (hcs : g.cell_size = (s : Int)) :
    truth_cell_sums g pixels (w : Int) (h : Int) ix iy
      = (∑ p in footprint w h s ix iy, (((pixels (p.2 * w + p.1)).val : Nat) : ℚ),
         ((footprint w h s ix iy).card : Int)) := by
  rw [truth_cell_sums_eq, hcs, Int.toNat_natCast]
  have hcond : ∀ xx yy : Nat,
      ((ix : Int) * (s : Int) + (xx : Int) < (w : Int)
        ∧ (iy : Int) * (s : Int) + (yy : Int) < (h : Int))
      ↔ (ix * s + xx < w ∧ iy * s + yy < h) := by
    intro xx yy
    constructor
    · rintro ⟨h1, h2⟩; exact ⟨by exact_mod_cast h1, by exact_mod_cast h2⟩
    · rintro ⟨h1, h2⟩; exact ⟨by exact_mod_cast h1, by exact_mod_cast h2⟩
  have hidx : ∀ xx yy : Nat,
      (((iy : Int) * (s : Int) + (yy : Int)) * (w : Int)
        + ((ix : Int) * (s : Int) + (xx : Int))).toNat
      = (iy * s + yy) * w + (ix * s + xx) := by
    intro xx yy
    have : ((iy : Int) * (s : Int) + (yy : Int)) * (w : Int)
        + ((ix : Int) * (s : Int) + (xx : Int))
        = (((iy * s + yy) * w + (ix * s + xx) : Nat) : Int) := by push_cast; ring
    rw [this]
    exact Int.toNat_natCast _
  have ex : (ix + 1) * s = ix * s + s := by ring
  have ey : (iy + 1) * s = iy * s + s := by ring
  have hsplit : ∀ (M : Type) [AddCommMonoid M] (v : Nat → Nat → M),
      (∑ yy in Finset.range s, ∑ xx in Finset.range s,
        (if ix * s + xx < w ∧ iy * s + yy < h then v (ix * s + xx) (iy * s + yy) else 0))
      = ∑ p in footprint w h s ix iy, v p.1 p.2 := by
    intro M _ v
    have hin : ∀ yy, yy ∈ Finset.range s →
        (∑ xx in Finset.range s,
          (if ix * s + xx < w ∧ iy * s + yy < h then v (ix * s + xx) (iy * s + yy) else 0))
        = if iy * s + yy < h then
            ∑ px in Finset.Ico (ix * s) (min (ix * s + s) w), v px (iy * s + yy)
          else 0 := by
      intro yy _
      by_cases hB : iy * s + yy < h
      · simp only [hB, and_true, if_true]
        exact sum_prefix_Ico (ix * s) s w (fun px => v px (iy * s + yy))
      · simp only [hB, and_false, if_false]
        exact Finset.sum_const_zero
    rw [Finset.sum_congr rfl hin,
      sum_prefix_Ico (iy * s) s h
        (fun py => ∑ px in Finset.Ico (ix * s) (min (ix * s + s) w), v px py)]
    unfold footprint
    rw [ex, ey, Finset.sum_product_right]
  congr 1
  · simp only [hcond, hidx]
    exact hsplit ℚ (fun px py => (((pixels (py * w + px)).val : Nat) : ℚ))
  · simp only [hcond]
    rw [hsplit Int (fun _ _ => (1 : Int))]
    simp

theorem build_truth_cell_eq (g : ReconGrid) (pixels : Nat → Fin 256) (img_w img_h : Int)
    (c : Nat) (hc : c < g.ny.toNat * g.nx.toNat) (gt : Nat → ℚ) :
    build_truth_cell g pixels img_w img_h (c / g.nx.toNat) (c % g.nx.toNat) gt
      = (truthWeight g pixels img_w img_h c).map (fun o => applyWrite o c gt) := by
  have hnx : 0 < g.nx.toNat := by
    rcases Nat.eq_zero_or_pos g.nx.toNat with h | h
    · rw [h] at hc; simp at hc
    · exact h
  unfold build_truth_cell truthWeight
  simp only [flat_index g.nx c hnx]
  cases fdiv (truth_cell_sums g pixels img_w img_h (c % g.nx.toNat) (c / g.nx.toNat)).1
      ((truth_cell_sums g pixels img_w img_h (c % g.nx.toNat) (c / g.nx.toNat)).2 : ℚ) with
  | none => rfl
  | some avg => rfl

/-- When no cell divides by zero, `recon_grid_build_truth` succeeds and replaces the
ground truth of every cell by its stored average. -/
theorem build_truth_some (g : ReconGrid) (pixels : Nat → Fin 256) (img_w img_h : Int)
    (h : ∀ c, c < g.ny.toNat * g.nx.toNat → truthWeight g pixels img_w img_h c ≠ none) :
    recon_grid_build_truth g pixels img_w img_h
      = some { g with
          ground_truth := fun k =>
            if k < g.ny.toNat * g.nx.toNat then
              match truthWeight g pixels img_w img_h k with
              | some (some v) => v
              | _ => g.ground_truth k
            else g.ground_truth k } := by
  unfold recon_grid_build_truth
  rw [forLoopM_nested g.ny.toNat g.nx.toNat
    (fun iy ix gt1 => build_truth_cell g pixels img_w img_h iy ix gt1)]
  rw [forLoopM_congr _ _ _
    (fun c hc gt => build_truth_cell_eq g pixels img_w img_h c hc gt)]
  rw [forLoopM_writes, if_pos h]
  rfl

theorem footprint_card (w h s ix iy : Nat) :
    (footprint w h s ix iy).card
      = (min ((ix + 1) * s) w - ix * s) * (min ((iy + 1) * s) h - iy * s) := by
  unfold footprint
  rw [Finset.card_product, Nat.card_Ico, Nat.card_Ico]

theorem footprint_card_pos (w h s ix iy : Nat) (hs : 1 ≤ s) (hx : ix * s < w)
    (hy : iy * s < h) : 1 ≤ (footprint w h s ix iy).card := by
  rw [footprint_card]
  have ex : (ix + 1) * s = ix * s + s := by ring
  have ey : (iy + 1) * s = iy * s + s := by ring
  rw [ex, ey]
  have h1 : 1 ≤ min (ix * s + s) w - ix * s := by omega
  have h2 : 1 ≤ min (iy * s + s) h - iy * s := by omega
  calc 1 = 1 * 1 := rfl
    _ ≤ _ := Nat.mul_le_mul h1 h2

/-- For a grid whose cells all start inside the raster, every cell stores its box
average. -/
theorem truthWeight_eq (g : ReconGrid) (pixels : Nat → Fin 256) (w h s : Nat)
    (hcs : g.cell_size = (s : Int)) (hs : 1 ≤ s)
    (hx : ∀ ix : Nat, (ix : Int) < g.nx → ix * s < w)
    (hy : ∀ iy : Nat, (iy : Int) < g.ny → iy * s < h)
    (c : Nat) (hc : c < g.ny.toNat * g.nx.toNat) :
    truthWeight g pixels (w : Int) (h : Int) c
      = some (some (boxAverage pixels w h s (c % g.nx.toNat) (c / g.nx.toNat))) := by
  have hnx : 0 < g.nx.toNat := by
    rcases Nat.eq_zero_or_pos g.nx.toNat with h0 | h0
    · rw [h0] at hc; simp at hc
    · exact h0
  have hix : ((c % g.nx.toNat : Nat) : Int) < g.nx := by
    have := Nat.mod_lt c hnx
    omega
  have hiy : ((c / g.nx.toNat : Nat) : Int) < g.ny := by
    have : c / g.nx.toNat < g.ny.toNat := Nat.div_lt_of_lt_mul (by rw [Nat.mul_comm]; exact hc)
    obtain ⟨q, hq⟩ : ∃ q, q = c / g.nx.toNat := ⟨_, rfl⟩
    rw [← hq] at this ⊢
    omega
  have hpos := footprint_card_pos w h s (c % g.nx.toNat) (c / g.nx.toNat) hs
    (hx _ hix) (hy _ hiy)
  have hne : (((footprint w h s (c % g.nx.toNat) (c / g.nx.toNat)).card : Int) : ℚ) ≠ 0 := by
    have : (0 : ℚ) < (((footprint w h s (c % g.nx.toNat) (c / g.nx.toNat)).card : Int) : ℚ) := by
      exact_mod_cast hpos
    exact ne_of_gt this
  unfold truthWeight
  simp only [truth_cell_sums_footprint g pixels w h s _ _ hcs, fdiv, hne, if_false,
    Option.map_some']
  unfold boxAverage
  simp

theorem build_truth_spec (g : ReconGrid) (pixels : Nat → Fin 256) (w h s : Nat)
    (hcs : g.cell_size = (s : Int)) (hs : 1 ≤ s)
    (hx : ∀ ix : Nat, (ix : Int) < g.nx → ix * s < w)
    (hy : ∀ iy : Nat, (iy : Int) < g.ny → iy * s < h) :
    ∃ g1, recon_grid_build_truth g pixels (w : Int) (h : Int) = some g1
      ∧ g1.values = g.values ∧ g1.row_buffer = g.row_buffer
      ∧ ∀ ix iy : Nat, (ix : Int) < g.nx → (iy : Int) < g.ny →
          g1.ground_truth ((iy : Int) * g.nx + (ix : Int)).toNat
            = boxAverage pixels w h s ix iy := by
  have hall : ∀ c, c < g.ny.toNat * g.nx.toNat →
      truthWeight g pixels (w : Int) (h : Int) c ≠ none := by
    intro c hc
    rw [truthWeight_eq g pixels w h s hcs hs hx hy c hc]
    simp
  refine ⟨_, build_truth_some g pixels w h hall, rfl, rfl, ?_⟩
  intro ix iy hix hiy
  obtain ⟨hidx, hlt, hmod, hdiv⟩ := cell_index g.nx g.ny ix iy hix hiy
  rw [hidx]
  simp only [hlt, if_true]
  rw [truthWeight_eq g pixels w h s hcs hs hx hy _ hlt, hmod, hdiv]

/-- In the grid that `recon_grid_alloc` returns, every cell starts inside the raster. -/
theorem alloc_cells_in_raster (w s : Nat) (hs : 1 ≤ s) (ix : Nat)
    (hix : (ix : Int) < ((w : Int) + (s : Int) - 1).tdiv (s : Int)) : ix * s < w := by
  obtain ⟨_, _, hmin⟩ := ceil_div_spec (w : Int) (s : Int) (by omega) (by omega)
  by_contra hcon
  have hle : w ≤ ix * s := not_lt.mp hcon
  have hle' : (w : Int) ≤ (ix : Int) * (s : Int) := by exact_mod_cast hle
  have := hmin _ hle'
  omega

/-- The grid allocated for a raster of `w` by `h` pixels, and what
`recon_grid_build_truth` makes of it. -/
theorem alloc_build_truth (arena : Arena) (mem : ReconGrid) (pixels : Nat → Fin 256)
    (w h s : Nat) (hw : 1 ≤ w) (hh : 1 ≤ h) (hs : 1 ≤ s) :
    ∃ a' g g1, recon_grid_alloc arena mem (w : Int) (h : Int) (s : Int) = some (a', g)
      ∧ recon_grid_build_truth g pixels (w : Int) (h : Int) = some g1
      ∧ ∀ ix iy : Nat, (ix : Int) < g.nx → (iy : Int) < g.ny →
          (truth_cell_sums g pixels (w : Int) (h : Int) ix iy).2
              = ((footprint w h s ix iy).card : Int)
          ∧ 1 ≤ (footprint w h s ix iy).card
          ∧ g1.ground_truth ((iy : Int) * g.nx + (ix : Int)).toNat
              = boxAverage pixels w h s ix iy := by
  obtain ⟨hx0, _, _⟩ := ceil_div_spec (w : Int) (s : Int) (by omega) (by omega)
  obtain ⟨hy0, _, _⟩ := ceil_div_spec (h : Int) (s : Int) (by omega) (by omega)
  have hn : ¬ ((w : Int) + (s : Int) - 1).tdiv (s : Int)
      * ((h : Int) + (s : Int) - 1).tdiv (s : Int) < 0 := not_lt.mpr (mul_nonneg hx0 hy0)
  obtain ⟨a', g, ha, hgx, hgy, hgs⟩ : ∃ a' g,
      recon_grid_alloc arena mem (w : Int) (h : Int) (s : Int) = some (a', g)
      ∧ g.nx = ((w : Int) + (s : Int) - 1).tdiv (s : Int)
      ∧ g.ny = ((h : Int) + (s : Int) - 1).tdiv (s : Int)
      ∧ g.cell_size = (s : Int) := by
    obtain ⟨a', ha⟩ := grid_alloc_eq arena mem (w : Int) (h : Int) (s : Int) (by omega) hn
    exact ⟨a', _, ha, rfl, rfl, rfl⟩
  have hx : ∀ ix : Nat, (ix : Int) < g.nx → ix * s < w :=
    fun ix hix => alloc_cells_in_raster w s hs ix (by rw [← hgx]; exact hix)
  have hy : ∀ iy : Nat, (iy : Int) < g.ny → iy * s < h :=
    fun iy hiy => alloc_cells_in_raster h s hs iy (by rw [← hgy]; exact hiy)
  obtain ⟨g1, hg1, _, _, hgt⟩ := build_truth_spec g pixels w h s hgs hs hx hy
  refine ⟨a', g, g1, ha, hg1, ?_⟩
  intro ix iy hix hiy
  refine ⟨?_, ?_, hgt ix iy hix hiy⟩
  · rw [truth_cell_sums_footprint g pixels w h s ix iy hgs]
  · exact footprint_card_pos w h s ix iy hs (hx ix hix) (hy iy hiy)

/-- C19: for every image width `w >= 1`, height `h >= 1` and cell size `s >= 1`, when
`recon_grid_build_truth` runs on the grid returned by `recon_grid_alloc` for the same
`(w, h, s)`, the `count` of every cell is at least 1, so no division `sum / count` is a
division by zero and the function has a result. -/
theorem build_truth_count_pos (arena : Arena) (mem : ReconGrid) (pixels : Nat → Fin 256)
    (w h s : Nat) (hw : 1 ≤ w) (hh : 1 ≤ h) (hs : 1 ≤ s) :
    ∃ a' g, recon_grid_alloc arena mem (w : Int) (h : Int) (s : Int) = some (a', g)
      ∧ (∀ ix iy : Nat, (ix : Int) < g.nx → (iy : Int) < g.ny →
          1 ≤ (truth_cell_sums g pixels (w : Int) (h : Int) ix iy).2)
      ∧ ∃ g1, recon_grid_build_truth g pixels (w : Int) (h : Int) = some g1 := by
  obtain ⟨a', g, g1, ha, hg1, hcells⟩ := alloc_build_truth arena mem pixels w h s hw hh hs
  refine ⟨a', g, ha, ?_, g1, hg1⟩
  intro ix iy hix hiy
  obtain ⟨hcount, hpos, _⟩ := hcells ix iy hix hiy
  rw [hcount]
  exact_mod_cast hpos

/-- Instance of C19: the raster `rampPixels` of 7 by 4 pixels with cells of side 3. -/
theorem build_truth_count_pos_witness :
    ∃ a' g, recon_grid_alloc arena_create demoGrid ((7 : Nat) : Int) ((4 : Nat) : Int)
          ((3 : Nat) : Int) = some (a', g)
      ∧ (∀ ix iy : Nat, (ix : Int) < g.nx → (iy : Int) < g.ny →
          1 ≤ (truth_cell_sums g rampPixels ((7 : Nat) : Int) ((4 : Nat) : Int) ix iy).2)
      ∧ ∃ g1, recon_grid_build_truth g rampPixels ((7 : Nat) : Int) ((4 : Nat) : Int)
          = some g1 :=
  build_truth_count_pos arena_create demoGrid rampPixels 7 4 3 (by norm_num) (by norm_num)
    (by norm_num)

/-! ## Lemmas on `rayset_generate_fan` -/

/-- A loop of `n` calls of `rayset_append` on a set whose `count` is 0. -/
theorem append_loop_eq (n : Nat) (f : Nat → CTRay) (rs0 : RaySet) (h0 : rs0.count = 0) :
    forLoopM n (fun c rs => some (rayset_append rs (f c))) rs0
      = some { rs0 with
          rays := fun k => if k < n then f k else rs0.rays k
          count := n } := by
  induction n with
  | zero =>
    simp only [forLoopM, Nat.not_lt_zero, if_false]
    rw [← h0]
  | succ k ih =>
    simp only [forLoopM]
    rw [ih]
    simp only [Option.some_bind, rayset_append]
    congr 2
    funext j
    by_cases hj : j = k
    · subst hj
      simp
    · rw [Function.update_noteq hj]
      by_cases h1 : j < k
      · simp [h1, Nat.lt_succ_of_lt h1]
      · have h2 : ¬ j < k + 1 := by omega
        simp [h1, h2]

theorem fan_append_ray_some (cosf sinf : ℚ → ℚ) (PI : ℚ) (halfNumRays : Int)
    (step sstep : ℚ) (i t : Nat) (rs : RaySet) :
    fan_append_ray cosf sinf PI halfNumRays (some step) (some sstep) i t rs
      = some (rayset_append rs (fanRay cosf sinf PI halfNumRays step sstep i t)) := rfl

theorem fan_rays_per_source (rps : Nat) :
    (2 * ((rps / 2 : Nat) : Int) + 1).toNat = 2 * (rps / 2) + 1 := by
  have : (2 * ((rps / 2 : Nat) : Int) + 1) = ((2 * (rps / 2) + 1 : Nat) : Int) := by
    push_cast; ring
  rw [this]
  exact Int.toNat_natCast _

/-- The loops of `rayset_generate_fan`, as one loop over the ray index. -/
theorem fan_loops_flat (cosf sinf : ℚ → ℚ) (PI : ℚ) (halfNumRays : Int)
    (angle_step spread_angle_step : Option ℚ) (ns R : Nat) (rs0 : RaySet) :
    forLoopM ns
        (fun i rs => forLoopM R
          (fun t rs1 =>
            fan_append_ray cosf sinf PI halfNumRays angle_step spread_angle_step i t rs1) rs)
        rs0
      = forLoopM (ns * R)
          (fun c rs1 => fan_append_ray cosf sinf PI halfNumRays angle_step spread_angle_step
            (c / R) (c % R) rs1) rs0 :=
  forLoopM_nested ns R
    (fun i t rs1 =>
      fan_append_ray cosf sinf PI halfNumRays angle_step spread_angle_step i t rs1) rs0

/-- With at least one source and at least two rays per source requested,
`rayset_generate_fan` succeeds, and ray `k` of the set is `fanRay` for source `k / R`
and position `k % R`, where `R = 2 * (rays_per_source / 2) + 1`. -/
theorem generate_fan_eq (cosf sinf : ℚ → ℚ) (PI : ℚ) (arena : Arena) (mem : RaySet)
    (ns rps : Nat) (deg : ℚ) (hns : 1 ≤ ns) (hrps : 2 ≤ rps) :
    rayset_generate_fan cosf sinf PI arena mem ns rps deg
      = some ((rayset_alloc arena mem (ns * (2 * (rps / 2) + 1))).1,
          { rays := fun k =>
              if k < ns * (2 * (rps / 2) + 1) then
                fanRay cosf sinf PI ((rps / 2 : Nat) : Int) (360 / (ns : ℚ) * PI / 180)
                  (deg * PI / 180 / (((2 * (rps / 2) + 1 - 1 : Nat) : ℚ)))
                  (k / (2 * (rps / 2) + 1)) (k % (2 * (rps / 2) + 1))
              else mem.rays k
            projections := mem.projections
            count := ns * (2 * (rps / 2) + 1)
            max_count := ns * (2 * (rps / 2) + 1)
            type := RaySetType.RAY_MODE_FAN
            metadata :=
              { fan :=
                  { cx := 0
                    cy := 0
                    radius := 1
                    num_sources := ns
                    num_rays_per_source := 2 * (rps / 2) + 1
                    angle_spread_rad := deg * PI / 180 } } }) := by
  have hnsq : (ns : ℚ) ≠ 0 := by
    have : (0 : ℚ) < (ns : ℚ) := by exact_mod_cast hns
    exact ne_of_gt this
  have hhalf : 1 ≤ rps / 2 := by omega
  have hRq : (((2 * (rps / 2) + 1 - 1 : Nat) : ℚ)) ≠ 0 := by
    have h2 : 0 < 2 * (rps / 2) + 1 - 1 := by omega
    have : (0 : ℚ) < (((2 * (rps / 2) + 1 - 1 : Nat) : ℚ)) := by exact_mod_cast h2
    exact ne_of_gt this
  unfold rayset_generate_fan
  simp only [fan_rays_per_source, fdiv, hnsq, hRq, if_false, Option.map_some']
  rw [fan_loops_flat]
  rw [forLoopM_congr _ _ _
    (fun c _ rs => fan_append_ray_some cosf sinf PI ((rps / 2 : Nat) : Int)
      (360 / (ns : ℚ) * PI / 180) (deg * PI / 180 / (((2 * (rps / 2) + 1 - 1 : Nat) : ℚ)))
      (c / (2 * (rps / 2) + 1)) (c % (2 * (rps / 2) + 1)) rs)]
  rw [append_loop_eq _ _ _ rfl]
  rfl

/-- With at least one source and fewer than two rays per source requested, the angular
step between rays is a division by zero and no finite set is produced. -/
theorem generate_fan_none (cosf sinf : ℚ → ℚ) (PI : ℚ) (arena : Arena) (mem : RaySet)
    (ns rps : Nat) (deg : ℚ) (hns : 1 ≤ ns) (hrps : rps < 2) :
    rayset_generate_fan cosf sinf PI arena mem ns rps deg = none := by
  have hhalf : rps / 2 = 0 := by omega
  unfold rayset_generate_fan
  simp only [fan_rays_per_source]
  simp only [hhalf, Nat.mul_zero, Nat.zero_add, Nat.sub_self, Nat.cast_zero, fdiv, if_true,
    Option.map_eq_none']
  rw [fan_loops_flat]
  obtain ⟨m, hm⟩ : ∃ m, ns * 1 = m + 1 := ⟨ns - 1, by omega⟩
  rw [hm]
  simp only [forLoopM, fan_append_ray, Option.bind_none]
  cases forLoopM m _ _ <;> simp

/-! ## Claims on `rayset_generate_fan` -/

/-- The ray stored at index `i * R + j` (`j < R`) of a generated fan. -/
theorem generate_fan_ray (cosf sinf : ℚ → ℚ) (PI : ℚ) (arena : Arena) (mem : RaySet)
    (ns rps : Nat) (deg : ℚ) (hns : 1 ≤ ns) (hrps : 2 ≤ rps) :
    ∃ a' rs, rayset_generate_fan cosf sinf PI arena mem ns rps deg = some (a', rs)
      ∧ rs.count = ns * (2 * (rps / 2) + 1)
      ∧ rs.metadata.fan.num_rays_per_source = 2 * (rps / 2) + 1
      ∧ rs.metadata.fan.angle_spread_rad = deg * PI / 180
      ∧ ∀ i j, i < ns → j < 2 * (rps / 2) + 1 →
          rs.rays (i * (2 * (rps / 2) + 1) + j)
            = fanRay cosf sinf PI ((rps / 2 : Nat) : Int) (360 / (ns : ℚ) * PI / 180)
                (deg * PI / 180 / (((2 * (rps / 2) + 1 - 1 : Nat) : ℚ))) i j := by
  refine ⟨_, _, generate_fan_eq cosf sinf PI arena mem ns rps deg hns hrps, rfl, rfl, rfl, ?_⟩
  intro i j hi hj
  have hlt : i * (2 * (rps / 2) + 1) + j < ns * (2 * (rps / 2) + 1) := by
    calc i * (2 * (rps / 2) + 1) + j < i * (2 * (rps / 2) + 1) + (2 * (rps / 2) + 1) := by omega
      _ = (i + 1) * (2 * (rps / 2) + 1) := by ring
      _ ≤ ns * (2 * (rps / 2) + 1) := Nat.mul_le_mul_right _ hi
  have h1 : (i * (2 * (rps / 2) + 1) + j) / (2 * (rps / 2) + 1) = i := by
    rw [Nat.add_comm, Nat.add_mul_div_right _ _ (by omega), Nat.div_eq_of_lt hj, Nat.zero_add]
  have h2 : (i * (2 * (rps / 2) + 1) + j) % (2 * (rps / 2) + 1) = j := by
    rw [Nat.add_comm, Nat.add_mul_mod_self_right, Nat.mod_eq_of_lt hj]
  simp only [hlt, if_true, h1, h2]

theorem source_angle_eq (PI : ℚ) (ns i : Nat) (hns : 1 ≤ ns) :
    (i : ℚ) * (360 / (ns : ℚ) * PI / 180) = (i : ℚ) * 2 * PI / (ns : ℚ) := by
  have hnsq : (ns : ℚ) ≠ 0 := by
    have : (0 : ℚ) < (ns : ℚ) := by exact_mod_cast hns
    exact ne_of_gt this
  field_simp
  ring

/-- The angle that the code computes for a ray is `fanAngle`; `hf` is `halfNumRays`. -/
theorem ray_angle_eq (PI : ℚ) (ns hf : Nat) (spread : ℚ) (i j : Nat) (hns : 1 ≤ ns)
    (hhf : 1 ≤ hf) :
    (i : ℚ) * (360 / (ns : ℚ) * PI / 180) + PI
        + ((-(hf : Int) + (j : Int) : Int) : ℚ) * (spread / (((2 * hf + 1 - 1 : Nat) : ℚ)))
      = fanAngle PI ns (2 * hf + 1) spread i j := by
  have hh : (0 : ℚ) < (hf : ℚ) := by exact_mod_cast hhf
  have hhne : (hf : ℚ) ≠ 0 := ne_of_gt hh
  have e1 : (((2 * hf + 1 - 1 : Nat) : ℚ)) = 2 * (hf : ℚ) := by
    rw [Nat.add_sub_cancel]
    push_cast
    ring
  have e2 : (((2 * hf + 1 : Nat) : ℚ)) - 1 = 2 * (hf : ℚ) := by
    push_cast
    ring
  unfold fanAngle
  rw [source_angle_eq PI ns i hns, e1, e2]
  push_cast
  field_simp
  ring

/-- C13: for every `num_sources >= 1`, `rays_per_source >= 2` and spread, with `R` the
stored `num_rays_per_source` and `spread` the stored angular spread, the `j`-th ray
(`j < R`) of source `i` in the set returned by `rayset_generate_fan` has direction
`(cosf a, sinf a)` with `a = source_angle_i + PI - spread/2 + j * spread/(R-1)`; so the
first ray of each block is at `source_angle + PI - spread/2`, the last at
`source_angle + PI + spread/2`, and consecutive rays differ by the same step
`spread/(R-1)`. -/
theorem generate_fan_spread (cosf sinf : ℚ → ℚ) (PI : ℚ) (arena : Arena) (mem : RaySet)
    (ns rps : Nat) (deg : ℚ) (hns : 1 ≤ ns) (hrps : 2 ≤ rps) :
    ∃ a' rs, rayset_generate_fan cosf sinf PI arena mem ns rps deg = some (a', rs)
      ∧ rs.metadata.fan.angle_spread_rad = deg * PI / 180
      ∧ (∀ i j, i < ns → j < rs.metadata.fan.num_rays_per_source →
          (rs.rays (i * rs.metadata.fan.num_rays_per_source + j)).dx
              = cosf (fanAngle PI ns rs.metadata.fan.num_rays_per_source
                  rs.metadata.fan.angle_spread_rad i j)
          ∧ (rs.rays (i * rs.metadata.fan.num_rays_per_source + j)).dy
              = sinf (fanAngle PI ns rs.metadata.fan.num_rays_per_source
                  rs.metadata.fan.angle_spread_rad i j))
      ∧ (∀ i, fanAngle PI ns rs.metadata.fan.num_rays_per_source
            rs.metadata.fan.angle_spread_rad i 0
          = (i : ℚ) * 2 * PI / (ns : ℚ) + PI - rs.metadata.fan.angle_spread_rad / 2)
      ∧ (∀ i, fanAngle PI ns rs.metadata.fan.num_rays_per_source
            rs.metadata.fan.angle_spread_rad i (rs.metadata.fan.num_rays_per_source - 1)
          = (i : ℚ) * 2 * PI / (ns : ℚ) + PI + rs.metadata.fan.angle_spread_rad / 2)
      ∧ ∀ i j, fanAngle PI ns rs.metadata.fan.num_rays_per_source
            rs.metadata.fan.angle_spread_rad i (j + 1)
          - fanAngle PI ns rs.metadata.fan.num_rays_per_source
            rs.metadata.fan.angle_spread_rad i j
          = rs.metadata.fan.angle_spread_rad
              / ((rs.metadata.fan.num_rays_per_source : ℚ) - 1) := by
  obtain ⟨a', rs, hgen, _, hR, hS, hray⟩ :=
    generate_fan_ray cosf sinf PI arena mem ns rps deg hns hrps
  have hh : (0 : ℚ) < ((rps / 2 : Nat) : ℚ) := by
    have : 0 < rps / 2 := by omega
    exact_mod_cast this
  have hhne : ((rps / 2 : Nat) : ℚ) ≠ 0 := ne_of_gt hh
  have e2 : (((2 * (rps / 2) + 1 : Nat) : ℚ)) - 1 = 2 * ((rps / 2 : Nat) : ℚ) := by
    push_cast
    ring
  refine ⟨a', rs, hgen, hS, ?_, ?_, ?_, ?_⟩
  · intro i j hi hj
    rw [hR] at hj ⊢
    rw [hS, hray i j hi hj]
    have ha := ray_angle_eq PI ns (rps / 2) (deg * PI / 180) i j hns (by omega)
    constructor
    · show cosf _ = _
      rw [ha]
    · show sinf _ = _
      rw [ha]
  · intro i
    unfold fanAngle
    push_cast
    ring
  · intro i
    rw [hR]
    unfold fanAngle
    rw [e2]
    have e3 : (((2 * (rps / 2) + 1 - 1 : Nat) : ℚ)) = 2 * ((rps / 2 : Nat) : ℚ) := by
      rw [Nat.add_sub_cancel]
      push_cast
      ring
    rw [e3]
    field_simp
    ring
  · intro i j
    unfold fanAngle
    push_cast
    ring

/-- Instance of C13: four sources, five rays per source, spread 30 degrees. -/
theorem generate_fan_spread_witness :
    ∃ a' rs, rayset_generate_fan squareCos squareSin demoPI arena_create demoRaySet 4 5 30
        = some (a', rs)
      ∧ rs.metadata.fan.angle_spread_rad = 30 * demoPI / 180
      ∧ ∀ i j, i < 4 → j < rs.metadata.fan.num_rays_per_source →
          (rs.rays (i * rs.metadata.fan.num_rays_per_source + j)).dx
              = squareCos (fanAngle demoPI 4 rs.metadata.fan.num_rays_per_source
                  rs.metadata.fan.angle_spread_rad i j)
          ∧ (rs.rays (i * rs.metadata.fan.num_rays_per_source + j)).dy
              = squareSin (fanAngle demoPI 4 rs.metadata.fan.num_rays_per_source
                  rs.metadata.fan.angle_spread_rad i j) := by
  obtain ⟨a', rs, h1, h2, h3, _⟩ :=
    generate_fan_spread squareCos squareSin demoPI arena_create demoRaySet 4 5 30
      (by norm_num) (by norm_num)
  exact ⟨a', rs, h1, h2, h3⟩

/-! ## Lemmas on the arena -/

theorem blockAt_mem (a : Arena) (id : Nat) (b : ArenaBlock) (h : blockAt a id = some b) :
    b ∈ a := by
  unfold blockAt at h
  exact List.mem_reverse.mp (List.getElem?_mem h)

/-- C21: for every arena state, `arena_reset` sets the `used` count of every block to 0
and leaves the number and the order of the blocks of the chain unchanged (each block
keeps its place and its capacity); and on a non-empty arena the next `arena_alloc` of
at most `ARENA_BLOCK_SIZE` bytes is served from the existing head block at offset 0,
without adding a block. -/
theorem arena_reset_effect (a : Arena) :
    (arena_reset a).length = a.length
      ∧ (∀ b, b ∈ arena_reset a → b.used = 0)
      ∧ (arena_reset a).map ArenaBlock.capacity = a.map ArenaBlock.capacity
      ∧ (∀ size, a ≠ [] → size ≤ ARENA_BLOCK_SIZE →
          ∃ b rest, arena_reset a = b :: rest
            ∧ arena_alloc (arena_reset a) size
                = ({ b with used := size } :: rest,
                   { block := rest.length, offset := 0, size := size })
            ∧ (arena_alloc (arena_reset a) size).1.length = a.length
            ∧ (arena_alloc (arena_reset a) size).2.block + 1 = a.length) := by
  refine ⟨?_, ?_, ?_, ?_⟩
  · unfold arena_reset
    exact List.length_map _ _
  · intro b hb
    unfold arena_reset at hb
    simp only [List.mem_map] at hb
    obtain ⟨b0, _, hbe⟩ := hb
    rw [← hbe]
  · unfold arena_reset
    rw [List.map_map]
    rfl
  · intro size hne hsize
    cases a with
    | nil => exact absurd rfl hne
    | cons b0 rest0 =>
      have hreset : arena_reset (b0 :: rest0)
          = { b0 with used := 0 } :: arena_reset rest0 := rfl
      have hlen : (arena_reset rest0).length = rest0.length := by
        unfold arena_reset
        exact List.length_map _ _
      have hnot : ¬ ARENA_BLOCK_SIZE < size := not_lt.mpr hsize
      have halloc : arena_alloc (arena_reset (b0 :: rest0)) size
          = ({ used := size, capacity := b0.capacity } :: arena_reset rest0,
             { block := (arena_reset rest0).length, offset := 0, size := size }) := by
        rw [hreset]
        unfold arena_alloc
        rw [if_neg hnot]
        simp [arena_bump, hnot]
      refine ⟨{ b0 with used := 0 }, arena_reset rest0, hreset, ?_, ?_, ?_⟩
      · rw [halloc]
      · rw [halloc]
        simp [hlen]
      · rw [halloc]
        simp [hlen]

/-- Instance of C21: the arena reached by a small request and a request above the block
size, reset, then asked for 100 bytes. -/
theorem arena_reset_effect_witness :
    (arena_run [ArenaOp.alloc 100, ArenaOp.alloc 20000]).1 ≠ []
      ∧ 100 ≤ ARENA_BLOCK_SIZE
      ∧ ∃ b rest, arena_reset (arena_run [ArenaOp.alloc 100, ArenaOp.alloc 20000]).1 = b :: rest
        ∧ arena_alloc (arena_reset (arena_run [ArenaOp.alloc 100, ArenaOp.alloc 20000]).1) 100
            = ({ b with used := 100 } :: rest,
               { block := rest.length, offset := 0, size := 100 })
        ∧ (arena_alloc (arena_reset (arena_run [ArenaOp.alloc 100, ArenaOp.alloc 20000]).1)
              100).1.length
            = (arena_run [ArenaOp.alloc 100, ArenaOp.alloc 20000]).1.length
        ∧ (arena_alloc (arena_reset (arena_run [ArenaOp.alloc 100, ArenaOp.alloc 20000]).1)
              100).2.block + 1
            = (arena_run [ArenaOp.alloc 100, ArenaOp.alloc 20000]).1.length :=
  ⟨by decide, by decide,
    (arena_reset_effect (arena_run [ArenaOp.alloc 100, ArenaOp.alloc 20000]).1).2.2.2 100
      (by decide) (by decide)⟩

/-! ## Claims on one ray with a consistent projection -/

/-- Moving a ray from frame 0 to frame 1 and then to frame 2 is moving it from frame 0
to frame 2, when the radius of frame 1 is not zero. -/
theorem translatedRay_comp (cx cy r c1x c1y r1 c2x c2y r2 : ℚ) (ray : CTRay) (h1 : r1 ≠ 0) :
    translatedRay c1x c1y r1 c2x c2y r2 (translatedRay cx cy r c1x c1y r1 ray)
      = translatedRay cx cy r c2x c2y r2 ray := by
  have hx : (c1x + (ray.ox - cx) / r * r1 - c1x) / r1 = (ray.ox - cx) / r := by
    rw [add_sub_cancel_left, mul_div_assoc, div_self h1, mul_one]
  have hy : (c1y + (ray.oy - cy) / r * r1 - c1y) / r1 = (ray.oy - cy) / r := by
    rw [add_sub_cancel_left, mul_div_assoc, div_self h1, mul_one]
  unfold translatedRay
  simp only [CTRay.mk.injEq, and_true, true_and]
  exact ⟨by rw [hx], by rw [hy]⟩

/-- Moving a ray to the frame it is in restores its origin, when the radius of the
frame is not zero. -/
theorem translatedRay_self (cx cy r : ℚ) (ray : CTRay) (hr : r ≠ 0) :
    (translatedRay cx cy r cx cy r ray).ox = ray.ox
      ∧ (translatedRay cx cy r cx cy r ray).oy = ray.oy := by
  unfold translatedRay
  simp only
  constructor
  · field_simp
  · field_simp

/-- C24: for every ray set with stored radius `r0 != 0` and all targets `(c1, r1)`
with `r1 != 0` and `(c2, r2)`, `rayset_fan_translate` to `(c1, r1)` and then to
`(c2, r2)` gives the same ray set (origins, lengths, directions, metadata) as
`rayset_fan_translate` to `(c2, r2)` directly; in particular retargeting away and back
to the original centre and radius restores every ray origin. -/
theorem fan_translate_path_independent (rs : RaySet) (c1x c1y r1 c2x c2y r2 : ℚ)
    (h0 : rs.metadata.fan.radius ≠ 0) (h1 : r1 ≠ 0) :
    ∃ rs1 rs2, rayset_fan_translate rs c1x c1y r1 = some rs1
      ∧ rayset_fan_translate rs1 c2x c2y r2 = some rs2
      ∧ rayset_fan_translate rs c2x c2y r2 = some rs2
      ∧ ∃ rsb, rayset_fan_translate rs1 rs.metadata.fan.cx rs.metadata.fan.cy
            rs.metadata.fan.radius = some rsb
          ∧ ∀ i, (rsb.rays i).ox = (rs.rays i).ox ∧ (rsb.rays i).oy = (rs.rays i).oy := by
  have e1 := fan_translate_eq rs c1x c1y r1 h0
  obtain ⟨rs1, hrs1⟩ : ∃ rs1 : RaySet, rs1 = { rs with
      rays := fun j =>
        if j < rs.count then
          translatedRay rs.metadata.fan.cx rs.metadata.fan.cy rs.metadata.fan.radius
            c1x c1y r1 (rs.rays j)
        else rs.rays j
      metadata := { fan := { rs.metadata.fan with cx := c1x, cy := c1y, radius := r1 } } } :=
    ⟨_, rfl⟩
  rw [← hrs1] at e1
  have hr1 : rs1.metadata.fan.radius ≠ 0 := by rw [hrs1]; exact h1
  have e2 := fan_translate_eq rs1 c2x c2y r2 hr1
  have eb := fan_translate_eq rs1 rs.metadata.fan.cx rs.metadata.fan.cy
    rs.metadata.fan.radius hr1
  have ed := fan_translate_eq rs c2x c2y r2 h0
  refine ⟨rs1, _, e1, e2, ?_, _, eb, ?_⟩
  · rw [ed, hrs1]
    simp only [Option.some.injEq, RaySet.mk.injEq, and_true, true_and]
    funext j
    by_cases hj : j < rs.count
    · simp only [hj, if_true]
      exact (translatedRay_comp _ _ _ _ _ _ _ _ _ _ h1).symm
    · simp only [hj, if_false]
  · intro i
    rw [hrs1]
    simp only
    by_cases hi : i < rs.count
    · simp only [hi, if_true]
      rw [translatedRay_comp _ _ _ _ _ _ _ _ _ _ h1]
      exact translatedRay_self _ _ _ _ h0
    · simp only [hi, if_false, and_self]

/-- Instance of C24: `demoRaySet` (radius 1) moved to centre `(2, 1)`, radius 2, and
then to centre `(5, 5)`, radius 3. -/
theorem fan_translate_path_independent_witness :
    ∃ rs1 rs2, rayset_fan_translate demoRaySet 2 1 2 = some rs1
      ∧ rayset_fan_translate rs1 5 5 3 = some rs2
      ∧ rayset_fan_translate demoRaySet 5 5 3 = some rs2 := by
  obtain ⟨rs1, rs2, h1, h2, h3, _⟩ :=
    fan_translate_path_independent demoRaySet 2 1 2 5 5 3 (by simp [demoRaySet]) (by norm_num)
  exact ⟨rs1, rs2, h1, h2, h3⟩

/-! ## Claim on the entry parameter and the clamp -/

end CtxRay
